import Mathlib

/-!
Verification of the Grafana RBAC resource-permission store.

Shallow embedding of the `resourcepermissions` store
(`pkg/services/accesscontrol/resourcepermissions/store.go`, given as
`src/unnamed/part_000`) and of the access-control database layer
(`src/pkg/services/accesscontrol/database/database.go`), together with
proofs about the permission differ, the managed-role resolver, the
relational permission store and the tuple synchronizer.

Conventions of the embedding:
* database rows are records in in-memory lists; SQL filters become
  `List.filter`, SQL joins become explicit predicates;
* the external tuple store (OpenFGA/zanzana) is a write-only list of
  tuples; each `Write` RPC can fail, controlled by an oracle in `Env`;
* `time.Now()` timestamps are not modelled (no claim mentions them);
* Go functions returning `(T, error)` become functions returning
  `Except Err T × St` — the state is returned in the error case as well,
  because tuple-store writes that happened before the failure survive.
-/

set_option linter.unusedVariables false

namespace GrafanaRBAC

/-- Relational `role` row (`role(id, org_id, uid, name, ...)`). -/
structure Role where
  id : Nat
  orgID : Int
  uid : String
  name : String
deriving Repr, DecidableEq, Inhabited

/-- Relational `permission` row (`permission(id, role_id, action, scope, ...)`);
the cached kind/attribute/identifier decomposition of the scope is not
modelled (no claim mentions it). -/
structure Permission where
  id : Nat
  roleID : Nat
  action : String
  scope : String
deriving Repr, DecidableEq, Inhabited

/-- `user_role(org_id, user_id, role_id)` assignment row. -/
structure UserRole where
  orgID : Int
  userID : Int
  roleID : Nat
deriving Repr, DecidableEq, Inhabited

/-- `team_role(org_id, team_id, role_id)` assignment row. -/
structure TeamRole where
  orgID : Int
  teamID : Int
  roleID : Nat
deriving Repr, DecidableEq, Inhabited

/-- `builtin_role(org_id, role, role_id)` assignment row. -/
structure BuiltinRole where
  orgID : Int
  role : String
  roleID : Nat
deriving Repr, DecidableEq, Inhabited

/-- The relational database state: the five tables touched by the store,
plus the store-assigned auto-increment counter for fresh row ids. -/
structure DB where
  roles : List Role
  permissions : List Permission
  userRoles : List UserRole
  teamRoles : List TeamRole
  builtinRoles : List BuiltinRole
  nextID : Nat
deriving Repr, DecidableEq, Inhabited

/-- A relationship tuple written to the external authorization engine
(`openfgav1.TupleKey`: User, Relation, Object; the empty Condition struct
is not modelled). -/
structure Tuple where
  user : String
  relation : String
  obj : String
deriving Repr, DecidableEq, Inhabited

/-- Error taxonomy of the store operations. -/
inductive Err where
  | userNotFound
  | teamNotFound
  | invalidBuiltinRole (role : String)
  | duplicateUserAssignment
  | duplicateTeamAssignment
  | duplicateBuiltinAssignment
  | idGenerationExhausted
  | syncWriteError
deriving Repr, DecidableEq, Inhabited

/-- Whole modelled state: the relational database, the contents of the
external tuple store, and instrumentation counters (number of tuple-store
`Write` RPCs issued, number of random UID samples drawn, number of
relational transactions opened). -/
structure St where
  db : DB
  tuples : List Tuple
  zCalls : Nat
  uidCalls : Nat
  txCount : Nat
deriving Repr, DecidableEq, Inhabited

/-- Environment: oracles for the non-deterministic / external collaborators.
`zOk k` says whether the `k`-th tuple-store write RPC succeeds; `newUID k`
is the `k`-th random short UID drawn by `util.GenerateShortUID`;
`flagAccessActionSets` is the `FlagAccessActionSets` feature toggle;
`convert` is `zclient.ConvertToRelationObject (action, scope, resourceID,
container)`, an external fixed conversion rule returning a
(relation, object) pair; `folderContainer` is `zclient.FolderContainer`. -/
structure Env where
  zOk : Nat → Bool
  newUID : Nat → String
  flagAccessActionSets : Bool
  convert : String → String → String → String → String × String
  folderContainer : String

instance {ε α : Type} [DecidableEq ε] [DecidableEq α] :
    DecidableEq (Except ε α)
  | .error x, .error y =>
    match decEq x y with
    | isTrue h => isTrue (h ▸ rfl)
    | isFalse h => isFalse (fun hc => h (Except.error.inj hc))
  | .error _, .ok _ => isFalse Except.noConfusion
  | .ok _, .error _ => isFalse Except.noConfusion
  | .ok x, .ok y =>
    match decEq x y with
    | isTrue h => isTrue (h ▸ rfl)
    | isFalse h => isFalse (fun hc => h (Except.ok.inj hc))

/-- Decimal digit character, `d % 10` mapped to `'0'`..`'9'`. -/
def decDigit (d : Nat) : Char := Char.ofNat (48 + d % 10)

/-- The ten decimal digit characters. -/
def digitChars : List Char := ['0', '1', '2', '3', '4', '5', '6', '7', '8', '9']

/-- The characters that may occur in the decimal representation of an
`int64`: a minus sign or a digit. -/
def dmChars : List Char := '-' :: digitChars

/-- Fuel-driven decimal digit expansion: `natCharsAux (n + 1) n` yields
the decimal digits of `n`, most significant first (the fuel only makes
the division recursion structural — one digit is produced per step, and
`n + 1` steps always suffice). -/
def natCharsAux : Nat → Nat → List Char
  | 0, _ => []
  | fuel + 1, n =>
    if n < 10 then [decDigit n] else natCharsAux fuel (n / 10) ++ [decDigit n]

/-- Decimal digit characters of a natural number, most significant first
(embedding of the digits produced by `strconv.FormatInt(n, 10)`). -/
def natChars (n : Nat) : List Char := natCharsAux (n + 1) n

/-- Decimal character representation of an `int64`, embedding
`strconv.FormatInt(i, 10)` (minus sign for negatives). -/
def intChars : Int → List Char
  | .ofNat n => natChars n
  | .negSucc n => '-' :: natChars (n + 1)

/-- Decimal string of an `int64` (`strconv.FormatInt(i, 10)`). -/
def intStr (i : Int) : String := String.mk (intChars i)

/-- Modelled from the spec: `accesscontrol.Scope` (outside the excerpt)
joins the scope segments with the fixed `":"` delimiter —
`"<kind>:<attribute>:<identifier>"` (spec section 6). -/
def scopeStr (kind attrSeg idSeg : String) : String :=
  kind ++ ":" ++ attrSeg ++ ":" ++ idSeg

/-- Modelled from the spec: `accesscontrol.ManagedRolePrefix` (outside the
excerpt) — the reserved `"managed:"` role-name marker; the excerpt itself
matches it with `r.name LIKE 'managed:%'`. -/
def managedRoleMarker : String := "managed:"

/-- Embedding of Go `strings.HasPrefix pre` applied to `s`: character-list
prefix test (the byte-positional `String.startsWith` of the Lean library is
not kernel-reducible, so the embedding works on the character list). -/
def strHasPre (s pre : String) : Bool := pre.data.isPrefixOf s.data

/-- Embedding of Go `strings.ToLower`: character-wise lower-casing. -/
def lowerStr (s : String) : String := String.mk (s.data.map Char.toLower)

/-- Modelled from the spec: `accesscontrol.ManagedUserRoleName` (outside
the excerpt) — the managed role name for one user, carrying the reserved
`"managed:"` marker and the subject identity. -/
def managedUserRoleName (userID : Int) : String :=
  "managed:users:" ++ intStr userID ++ ":permissions"

/-- Modelled from the spec: `accesscontrol.ManagedTeamRoleName` (outside
the excerpt). -/
def managedTeamRoleName (teamID : Int) : String :=
  "managed:teams:" ++ intStr teamID ++ ":permissions"

/-- Modelled from the spec: `accesscontrol.ManagedBuiltInRoleName`
(outside the excerpt). -/
def managedBuiltInRoleName (builtInRole : String) : String :=
  "managed:builtins:" ++ lowerStr builtInRole ++ ":permissions"

/-- Modelled from the spec: `org.RoleType.IsValid` (outside the excerpt) —
validity of a basic org role name; the excerpt's own comment lists the
basic roles as "(Admin, Editor, Viewer, None)". -/
def isValidRoleType (r : String) : Bool :=
  r == "Admin" || r == "Editor" || r == "Viewer" || r == "None"

/-- Modelled from the spec: `accesscontrol.RoleGrafanaAdmin` (outside the
excerpt) — the reserved Grafana super-admin role name. -/
def roleGrafanaAdmin : String := "Grafana Admin"

/-- Modelled from the spec: `zclient.GenerateBasicRoleResource` (external
collaborator) — the synthesized basic-role object reference; the excerpt's
comment shows the shape `"role:basic_admin_1"`. -/
def generateBasicRoleResource (role : String) (orgID : Int) : String :=
  "role:basic_" ++ lowerStr role ++ "_" ++ intStr orgID

/-- `InMemoryActionSets.GetActionSetName`: lower-cased colon-joined
composite name `lower(resource):lower(permission)`. -/
def getActionSetName (resource permission : String) : String :=
  lowerStr resource ++ ":" ++ lowerStr permission

/-- Insert into a list acting as a set: append iff absent.  This is the
set-semantics of inserting a key into a Go `map[string]struct\x7b\x7d`. -/
def setInsert {α : Type} [DecidableEq α] (acc : List α) (a : α) : List α :=
  if a ∈ acc then acc else acc ++ [a]

/-- Fold a list into a duplicate-free list of its elements (insertion
order, first occurrence kept) — the key set of a Go map populated by
iterating the list. -/
def dedupAppend {α : Type} [DecidableEq α] (l : List α) : List α :=
  l.foldl setInsert []

/-- The `missing` set as initialized by `setResourcePermission`:
every action of `cmd.Actions` inserted into the `missing` map. -/
def desiredSet (actions : List String) : List String := dedupAppend actions

/-- The diff loop of `setResourcePermission` (lines 285-291 of the store):
for each current permission, if its action is still in `missing` remove it
from `missing`, otherwise append its row id to `remove`. -/
def diffGo : List String → List Nat → List Permission → List String × List Nat
  | m, rem, [] => (m, rem)
  | m, rem, p :: ps =>
    if p.action ∈ m then diffGo (m.erase p.action) rem ps
    else diffGo m (rem ++ [p.id]) ps

/-- The permission diff of `setResourcePermission`: from the desired
action set (`missing`, already deduplicated map keys) and the currently
stored permissions of the (role, scope) pair, compute the actions still
missing and the permission ids to remove. -/
def permissionDiff (desired : List String) (current : List Permission) :
    List String × List Nat :=
  diffGo desired [] current

/-- The natural-language reading of the spec's `toRemove` clause:
"permission IDs whose action is present in `currentPermissions` but absent
from `desiredActions`" (used to compare the code's diff against the spec's
words). -/
def specToRemove (desiredActions : List String) (current : List Permission) :
    List Nat :=
  (current.filter (fun p => !desiredActions.contains p.action)).map Permission.id

/-- Flat permission row returned by the store's permission queries
(`flatResourcePermission`); the user/team detail columns (login, email,
names) come from tables outside the excerpt and are filled with zero
values by the embedded queries. -/
structure flatResourcePermission where
  id : Nat
  roleName : String
  action : String
  scope : String
  userId : Int
  userLogin : String
  userEmail : String
  teamId : Int
  teamEmail : String
  team : String
  builtInRole : String
  isServiceAccount : Bool
deriving Repr, DecidableEq, Inhabited

/-- `flatResourcePermission.IsManaged`: the role name carries the managed
marker and the scope is exactly the queried scope. -/
def flatResourcePermission.IsManaged (p : flatResourcePermission)
    (scope : String) : Bool :=
  strHasPre p.roleName managedRoleMarker && p.scope == scope

/-- `flatResourcePermission.IsInherited`: a managed-role permission whose
scope does not directly match the required scope (granted on a parent
resource). -/
def flatResourcePermission.IsInherited (p : flatResourcePermission)
    (scope : String) : Bool :=
  strHasPre p.roleName managedRoleMarker && p.scope != scope

/-- Aggregated `accesscontrol.ResourcePermission` view. -/
structure ResourcePermission where
  id : Nat
  roleName : String
  actions : List String
  scope : String
  userId : Int
  userLogin : String
  userEmail : String
  teamId : Int
  teamEmail : String
  team : String
  builtInRole : String
  isManaged : Bool
  isInherited : Bool
  isServiceAccount : Bool
deriving Repr, DecidableEq, Inhabited

/-- The zero `accesscontrol.ResourcePermission` value
(`&accesscontrol.ResourcePermission\x7b\x7d`). -/
def emptyResourcePermission : ResourcePermission :=
  { id := 0, roleName := "", actions := [], scope := "", userId := 0,
    userLogin := "", userEmail := "", teamId := 0, teamEmail := "",
    team := "", builtInRole := "", isManaged := false, isInherited := false,
    isServiceAccount := false }

/-- `flatPermissionsToResourcePermission`: collapse a non-empty group of
flat rows into one `ResourcePermission` carrying the union of their
actions and the identity/classification of the first row. -/
def flatPermissionsToResourcePermission (scope : String)
    (permissions : List flatResourcePermission) : Option ResourcePermission :=
  match permissions with
  | [] => none
  | first :: _ =>
    some { id := first.id, roleName := first.roleName,
           actions := permissions.map flatResourcePermission.action,
           scope := first.scope, userId := first.userId,
           userLogin := first.userLogin, userEmail := first.userEmail,
           teamId := first.teamId, teamEmail := first.teamEmail,
           team := first.team, builtInRole := first.builtInRole,
           isManaged := first.IsManaged scope,
           isInherited := first.IsInherited scope,
           isServiceAccount := first.isServiceAccount }

/-- The classification loop of `flatPermissionsToResourcePermissions`:
each row goes to the `managed` bucket if `IsManaged`, else to `inherited`
if `IsInherited`, else to `provisioned`. -/
def partitionFlat (scope : String) :
    List flatResourcePermission →
    List flatResourcePermission × List flatResourcePermission × List flatResourcePermission
  | [] => ([], [], [])
  | p :: ps =>
    let rest := partitionFlat scope ps
    if p.IsManaged scope then (p :: rest.1, rest.2.1, rest.2.2)
    else if p.IsInherited scope then (rest.1, p :: rest.2.1, rest.2.2)
    else (rest.1, rest.2.1, p :: rest.2.2)

/-- `flatPermissionsToResourcePermissions`: partition the rows into the
managed/inherited/provisioned buckets and collapse each non-empty bucket
into one `ResourcePermission`. -/
def flatPermissionsToResourcePermissions (scope : String)
    (permissions : List flatResourcePermission) : List ResourcePermission :=
  let parts := partitionFlat scope permissions
  (match flatPermissionsToResourcePermission scope parts.1 with
   | some g => [g] | none => []) ++
  (match flatPermissionsToResourcePermission scope parts.2.1 with
   | some g => [g] | none => []) ++
  (match flatPermissionsToResourcePermission scope parts.2.2 with
   | some g => [g] | none => [])

/-- One `zClient.Write` RPC carrying a batch of tuple keys.  The RPC as a
whole either succeeds (all tuples land in the external store) or fails
(`SyncWriteError`, nothing written); the attempt is counted either way. -/
def zWrite (env : Env) (st : St) (ts : List Tuple) : Except Err Unit × St :=
  let st' := { st with zCalls := st.zCalls + 1 }
  if env.zOk st.zCalls then (.ok (), { st' with tuples := st'.tuples ++ ts })
  else (.error .syncWriteError, st')

/-- Modelled from the spec: `db.WithTransactionalDbSession` (outside the
excerpt) — runs the body in one relational transaction; per spec section 7
a relational error causes "full rollback of relational mutations (tuple
writes for that operation are simply never attempted)" while tuple writes
already issued from inside the operation are external and stand.  On an
error result the relational database reverts to its pre-transaction state;
everything external (tuple store, RPC/sample counters) keeps the state
reached inside the body. -/
def withTx {α : Type} (st : St) (f : St → Except Err α × St) :
    Except Err α × St :=
  match f { st with txCount := st.txCount + 1 } with
  | (.ok a, st') => (.ok a, st')
  | (.error e, st') => (.error e, { st' with db := st.db })

/-- `userAdder`: reject a duplicate `user_role` assignment, otherwise
insert the assignment row and write the "assignee" tuple. -/
def userAdder (env : Env) (orgID userID : Int) (role : Role) (st : St) :
    Except Err Unit × St :=
  if st.db.userRoles.any (fun a =>
      a.orgID == orgID && a.userID == userID && a.roleID == role.id) then
    (.error .duplicateUserAssignment, st)
  else
    let st1 := { st with db := { st.db with
      userRoles := st.db.userRoles ++ [⟨orgID, userID, role.id⟩] } }
    zWrite env st1 [⟨"user:" ++ intStr userID, "assignee", "role:" ++ role.uid⟩]

/-- `teamAdder`: reject a duplicate `team_role` assignment, otherwise
insert the assignment row and write the "assignee" tuple. -/
def teamAdder (env : Env) (orgID teamID : Int) (role : Role) (st : St) :
    Except Err Unit × St :=
  if st.db.teamRoles.any (fun a =>
      a.orgID == orgID && a.teamID == teamID && a.roleID == role.id) then
    (.error .duplicateTeamAssignment, st)
  else
    let st1 := { st with db := { st.db with
      teamRoles := st.db.teamRoles ++ [⟨orgID, teamID, role.id⟩] } }
    zWrite env st1 [⟨"team:" ++ intStr teamID, "assignee", "role:" ++ role.uid⟩]

/-- `builtInRoleAdder`: reject a duplicate `builtin_role` assignment,
otherwise insert the assignment row and write the "assignee" tuple for the
synthesized basic-role subject. -/
def builtInRoleAdder (env : Env) (orgID : Int) (builtinRole : String)
    (role : Role) (st : St) : Except Err Unit × St :=
  if st.db.builtinRoles.any (fun a =>
      a.roleID == role.id && a.role == builtinRole && a.orgID == orgID) then
    (.error .duplicateBuiltinAssignment, st)
  else
    let st1 := { st with db := { st.db with
      builtinRoles := st.db.builtinRoles ++ [⟨orgID, builtinRole, role.id⟩] } }
    zWrite env st1
      [⟨generateBasicRoleResource builtinRole orgID, "assignee", "role:" ++ role.uid⟩]

/-- The retry loop of `generateNewRoleUID` with the remaining attempt
count as fuel: draw `util.GenerateShortUID`, accept it if no role of the
org already carries it. -/
def generateNewRoleUIDGo (env : Env) (orgID : Int) (st : St) :
    Nat → Except Err String × St
  | 0 => (.error .idGenerationExhausted, st)
  | fuel + 1 =>
    let uid := env.newUID st.uidCalls
    let st' := { st with uidCalls := st.uidCalls + 1 }
    if st.db.roles.any (fun r => r.orgID == orgID && r.uid == uid) then
      generateNewRoleUIDGo env orgID st' fuel
    else (.ok uid, st')

/-- `generateNewRoleUID`: up to 3 attempts, then
"failed to generate uid". -/
def generateNewRoleUID (env : Env) (orgID : Int) (st : St) :
    Except Err String × St :=
  generateNewRoleUIDGo env orgID st 3

/-- `getOrCreateManagedRole`: look the role up by (org, name); if absent,
generate a UID, insert the role row and run the caller-supplied adder. -/
def getOrCreateManagedRole (env : Env) (orgID : Int) (name : String)
    (add : Role → St → Except Err Unit × St) (st : St) :
    Except Err Role × St :=
  match st.db.roles.find? (fun r => r.orgID == orgID && r.name == name) with
  | some role => (.ok role, st)
  | none =>
    match generateNewRoleUID env orgID st with
    | (.error e, st') => (.error e, st')
    | (.ok uid, st') =>
      let role : Role := { id := st'.db.nextID, orgID := orgID, uid := uid, name := name }
      let st1 := { st' with db := { st'.db with
        roles := st'.db.roles ++ [role], nextID := st'.db.nextID + 1 } }
      match add role st1 with
      | (.error e, st2) => (.error e, st2)
      | (.ok _, st2) => (.ok role, st2)

/-- The current permissions of one (role, scope) pair:
`SELECT p.* FROM permission p INNER JOIN role r ON r.id = p.role_id
WHERE r.id = ? AND p.scope = ?`. -/
def currentPerms (db : DB) (roleID : Nat) (scope : String) : List Permission :=
  db.permissions.filter (fun p => p.roleID == roleID && p.scope == scope)

/-- `deletePermissions`: no statement for an empty id list, otherwise
`DELETE FROM permission WHERE id IN(...)`. -/
def deletePermissions (ids : List Nat) (db : DB) : DB :=
  if ids.isEmpty then db
  else { db with permissions := db.permissions.filter (fun p => !ids.contains p.id) }

/-- The permission rows built by `createPermissions` before the
`InsertMulti`: one managed permission per action, at the command's scope,
with store-assigned sequential ids starting at `start`. -/
def freshRows (roleID : Nat) (scope : String) (acts : List String)
    (start : Nat) : List Permission :=
  match acts with
  | [] => []
  | a :: rest => ⟨start, roleID, a, scope⟩ :: freshRows roleID scope rest (start + 1)

/-- `createPermissions`: nothing to do for an empty action set; otherwise
insert one managed permission per action and — when the
`FlagAccessActionSets` feature is enabled — additionally the action-set
permission named `lower(resource):lower(permission)` at the same scope. -/
def createPermissions (env : Env) (roleID : Nat)
    (resource resourceID resourceAttribute : String)
    (actions : List String) (permission : String) (db : DB) : DB :=
  if actions.isEmpty then db
  else
    let acts := if env.flagAccessActionSets then
        actions ++ [getActionSetName resource permission]
      else actions
    let scope := scopeStr resource resourceAttribute resourceID
    { db with permissions := db.permissions ++ freshRows roleID scope acts db.nextID,
              nextID := db.nextID + acts.length }

/-- SQL `LEFT JOIN`: one row per match, a single null row when there is
no match. -/
def leftJoin {α : Type} (xs : List α) : List (Option α) :=
  match xs with
  | [] => [none]
  | xs => xs.map some

/-- `getPermissions`: the flat permission rows of one role at one scope
(`INNER JOIN role`, `LEFT JOIN` onto the three assignment tables; the
user/team detail tables are outside the excerpt, their columns are zero
values here). -/
def getPermissions (db : DB) (resource resourceID resourceAttribute : String)
    (roleID : Nat) : List flatResourcePermission :=
  let scope := scopeStr resource resourceAttribute resourceID
  match db.roles.find? (fun r => r.id == roleID) with
  | none => []
  | some r =>
    (db.permissions.filter (fun p => p.roleID == roleID && p.scope == scope)).flatMap
      fun p =>
        (leftJoin (db.teamRoles.filter (fun a => a.roleID == roleID))).flatMap
          fun tr =>
            (leftJoin (db.userRoles.filter (fun a => a.roleID == roleID))).flatMap
              fun ur =>
                (leftJoin (db.builtinRoles.filter (fun a => a.roleID == roleID))).map
                  fun br =>
                    { id := p.id, roleName := r.name, action := p.action,
                      scope := p.scope,
                      userId := ((ur.map UserRole.userID).getD 0),
                      userLogin := "", userEmail := "",
                      teamId := ((tr.map TeamRole.teamID).getD 0),
                      teamEmail := "", team := "",
                      builtInRole := ((br.map BuiltinRole.role).getD ""),
                      isServiceAccount := false }

/-- `SetResourcePermissionCommand`. -/
structure SetResourcePermissionCommand where
  actions : List String
  resource : String
  resourceID : String
  resourceAttribute : String
  permission : String
deriving Repr, DecidableEq, Inhabited

/-- The scope addressed by a command:
`accesscontrol.Scope(cmd.Resource, cmd.ResourceAttribute, cmd.ResourceID)`. -/
def cmdScope (cmd : SetResourcePermissionCommand) : String :=
  scopeStr cmd.resource cmd.resourceAttribute cmd.resourceID

/-- The tuple keys derived for a grant: one per requested action, with the
managed role as subject (`User = "role:" + role.UID`) and the
(relation, object) pair produced by `zclient.ConvertToRelationObject`;
the container is `zclient.FolderContainer` for the `"folders"` resource
and empty otherwise. -/
def grantTuples (env : Env) (role : Role) (cmd : SetResourcePermissionCommand) :
    List Tuple :=
  cmd.actions.map fun a =>
    let container := if cmd.resource == "folders" then env.folderContainer else ""
    let ro := env.convert a (cmdScope cmd) cmd.resourceID container
    { user := "role:" ++ role.uid, relation := ro.1, obj := ro.2 }

/-- `setResourcePermission` (the core grant): resolve/create the managed
role, load the current permissions of (role, scope), diff against the
desired action set, delete `remove`, insert `missing`, write the grant
tuples to the external engine, and return the aggregated view.  The tuple
write happens inside the enclosing relational transaction. -/
def setResourcePermission (env : Env) (orgID : Int) (roleName : String)
    (adder : Role → St → Except Err Unit × St)
    (cmd : SetResourcePermissionCommand) (st : St) :
    Except Err ResourcePermission × St :=
  match getOrCreateManagedRole env orgID roleName adder st with
  | (.error e, st') => (.error e, st')
  | (.ok role, st') =>
    let scope := cmdScope cmd
    let current := currentPerms st'.db role.id scope
    let (missing, remove) := permissionDiff (desiredSet cmd.actions) current
    let st1 := { st' with db := deletePermissions remove st'.db }
    let st2 := { st1 with db := (createPermissions env role.id cmd.resource
        cmd.resourceID cmd.resourceAttribute missing cmd.permission st1.db) }
    match zWrite env st2 (grantTuples env role cmd) with
    | (.error e, st3) => (.error e, st3)
    | (.ok _, st3) =>
      let flat := getPermissions st3.db cmd.resource cmd.resourceID
          cmd.resourceAttribute role.id
      match flatPermissionsToResourcePermission scope flat with
      | none => (.ok emptyResourcePermission, st3)
      | some p => (.ok p, st3)

/-- `setUserResourcePermission` (transaction body; the caller-supplied
hook is not modelled — the claims pass no hook). -/
def setUserResourcePermission (env : Env) (orgID userID : Int)
    (cmd : SetResourcePermissionCommand) (st : St) :
    Except Err ResourcePermission × St :=
  setResourcePermission env orgID (managedUserRoleName userID)
    (userAdder env orgID userID) cmd st

/-- `setTeamResourcePermission` (transaction body). -/
def setTeamResourcePermission (env : Env) (orgID teamID : Int)
    (cmd : SetResourcePermissionCommand) (st : St) :
    Except Err ResourcePermission × St :=
  setResourcePermission env orgID (managedTeamRoleName teamID)
    (teamAdder env orgID teamID) cmd st

/-- `setBuiltInResourcePermission` (transaction body; note: no validity
check here — the check lives in the exported single-grant entry point
only). -/
def setBuiltInResourcePermission (env : Env) (orgID : Int)
    (builtInRole : String) (cmd : SetResourcePermissionCommand) (st : St) :
    Except Err ResourcePermission × St :=
  setResourcePermission env orgID (managedBuiltInRoleName builtInRole)
    (builtInRoleAdder env orgID builtInRole) cmd st

/-- `SetUserResourcePermission`: reject user id 0 before opening the
transaction, otherwise run the grant in one transaction. -/
def SetUserResourcePermission (env : Env) (orgID userID : Int)
    (cmd : SetResourcePermissionCommand) (st : St) :
    Except Err ResourcePermission × St :=
  if userID == 0 then (.error .userNotFound, st)
  else withTx st (setUserResourcePermission env orgID userID cmd)

/-- `SetTeamResourcePermission`: reject team id 0 before opening the
transaction, otherwise run the grant in one transaction. -/
def SetTeamResourcePermission (env : Env) (orgID teamID : Int)
    (cmd : SetResourcePermissionCommand) (st : St) :
    Except Err ResourcePermission × St :=
  if teamID == 0 then (.error .teamNotFound, st)
  else withTx st (setTeamResourcePermission env orgID teamID cmd)

/-- `SetBuiltInResourcePermission`: reject a built-in role name that is
not a valid role type, or that is the reserved Grafana super-admin role,
before opening the transaction. -/
def SetBuiltInResourcePermission (env : Env) (orgID : Int)
    (builtInRole : String) (cmd : SetResourcePermissionCommand) (st : St) :
    Except Err ResourcePermission × St :=
  if !isValidRoleType builtInRole || builtInRole == roleGrafanaAdmin then
    (.error (.invalidBuiltinRole builtInRole), st)
  else withTx st (setBuiltInResourcePermission env orgID builtInRole cmd)

/-- `SetResourcePermissionsCommand`: the batch command struct; the subject
kind is chosen by zero-value checks on the shared fields. -/
structure SetResourcePermissionsCommand where
  userID : Int
  teamID : Int
  builtinRole : String
  cmd : SetResourcePermissionCommand
deriving Repr, DecidableEq, Inhabited

/-- The command loop of `SetResourcePermissions`: dispatch each command on
`User.ID != 0` / `TeamID != 0` / built-in role validity (note: the batch
admits `RoleGrafanaAdmin` here), append each non-nil resulting permission;
a command matching no branch is skipped. -/
def setResourcePermissionsGo (env : Env) (orgID : Int) :
    List SetResourcePermissionsCommand → List ResourcePermission → St →
    Except Err (List ResourcePermission) × St
  | [], acc, st => (.ok acc, st)
  | c :: rest, acc, st =>
    if c.userID != 0 then
      match setUserResourcePermission env orgID c.userID c.cmd st with
      | (.error e, st') => (.error e, st')
      | (.ok p, st') => setResourcePermissionsGo env orgID rest (acc ++ [p]) st'
    else if c.teamID != 0 then
      match setTeamResourcePermission env orgID c.teamID c.cmd st with
      | (.error e, st') => (.error e, st')
      | (.ok p, st') => setResourcePermissionsGo env orgID rest (acc ++ [p]) st'
    else if isValidRoleType c.builtinRole || c.builtinRole == roleGrafanaAdmin then
      match setBuiltInResourcePermission env orgID c.builtinRole c.cmd st with
      | (.error e, st') => (.error e, st')
      | (.ok p, st') => setResourcePermissionsGo env orgID rest (acc ++ [p]) st'
    else setResourcePermissionsGo env orgID rest acc st

/-- `SetResourcePermissions`: all batch commands inside one transaction. -/
def SetResourcePermissions (env : Env) (orgID : Int)
    (commands : List SetResourcePermissionsCommand) (st : St) :
    Except Err (List ResourcePermission) × St :=
  withTx st (setResourcePermissionsGo env orgID commands [])

/-- `DeleteResourcePermissions`: inside one transaction, select the ids of
the permission rows at the exact scope owned by a role of the org
(`INNER JOIN role ... WHERE permission.scope = ? AND role.org_id = ?`)
and delete them. -/
def DeleteResourcePermissions (orgID : Int)
    (resource resourceAttribute resourceID : String) (st : St) :
    Except Err Unit × St :=
  let scope := scopeStr resource resourceAttribute resourceID
  withTx st fun st0 =>
    let permissionIDs := (st0.db.permissions.filter (fun p =>
        p.scope == scope &&
        st0.db.roles.any (fun r => r.id == p.roleID && r.orgID == orgID))).map
      Permission.id
    (.ok (), { st0 with db := deletePermissions permissionIDs st0.db })

/-- One `org_user` membership row scanned by `syncOrgMembership`. -/
structure Membership where
  orgId : Int
  userId : Int
  role : String
deriving Repr, DecidableEq, Inhabited

/-- The two tuples derived from one org-membership row: the "member"
tuple against the org object and the "assignee" tuple against the
synthesized basic-role object. -/
def membershipTuples (m : Membership) : List Tuple :=
  [ { user := "user:" ++ intStr m.userId, relation := "member",
      obj := "org:" ++ intStr m.orgId },
    { user := "user:" ++ intStr m.userId, relation := "assignee",
      obj := generateBasicRoleResource m.role m.orgId } ]

/-- The Go map key: the concatenation `key.User + key.Relation + key.Object`. -/
def tupleKeyStr (t : Tuple) : String := t.user ++ t.relation ++ t.obj

/-- Insert one tuple into the dedup map `tupleKeys[key] = key`:
replace the entry when the key is present, append otherwise. -/
def upsertTuple (m : List (String × Tuple)) (t : Tuple) : List (String × Tuple) :=
  if m.any (fun kv => kv.1 == tupleKeyStr t) then
    m.map (fun kv => if kv.1 == tupleKeyStr t then (kv.1, t) else kv)
  else m ++ [(tupleKeyStr t, t)]

/-- The dedup map built by the row scan of `syncOrgMembership`: per
membership row, insert the "member" tuple then the "assignee" tuple,
keyed by the concatenated composite key. -/
def buildTupleMap (rows : List Membership) : List (String × Tuple) :=
  (rows.flatMap membershipTuples).foldl upsertTuple []

/-- The tuple batches: `flatTuples[i:end]` for `i = 0, 100, 200, ...`
with `end = min (i+100) len` — consecutive chunks of at most 100. -/
def chunksOf100 {α : Type} (xs : List α) : List (List α) :=
  if xs.isEmpty then [] else xs.take 100 :: chunksOf100 (xs.drop 100)
termination_by xs.length
decreasing_by
  rename_i h
  simp [List.isEmpty_iff] at h
  cases xs with
  | nil => exact absurd rfl h
  | cons a l => simp; omega

/-- The sequential batch-write loop: write batch `k`; on failure return
the error immediately (remaining batches are not attempted, tuples written
so far stand); `written` accumulates the external store contents. -/
def writeBatchesFrom (ok : Nat → Bool) :
    Nat → List Tuple → List (List Tuple) → Except Err Unit × List Tuple
  | _, written, [] => (.ok (), written)
  | k, written, b :: bs =>
    if ok k then writeBatchesFrom ok (k + 1) (written ++ b) bs
    else (.error .syncWriteError, written)

/-- `syncOrgMembership`: scan the membership rows into the dedup map,
flatten it, and write the deduplicated tuples sequentially in batches of
100; returns the error outcome and the tuples written to the external
engine. -/
def syncOrgMembership (ok : Nat → Bool) (rows : List Membership) :
    Except Err Unit × List Tuple :=
  writeBatchesFrom ok 0 [] (chunksOf100 ((buildTupleMap rows).map Prod.snd))

/-! ## Concrete instances used by witnesses and counterexamples -/

/-- A benign environment: every tuple-store write succeeds, UID samples
are pairwise distinct, the action-set feature flag is off, and the
external relation/object conversion keeps the action and scope. -/
def env0 : Env :=
  { zOk := fun _ => true, newUID := fun k => "uid" ++ intStr k,
    flagAccessActionSets := false,
    convert := fun a s _ _ => (a, s), folderContainer := "folder" }

/-- The same environment with the `FlagAccessActionSets` feature enabled. -/
def envFlag : Env := { env0 with flagAccessActionSets := true }

/-- The same environment where every tuple-store write after the first
fails. -/
def envFail : Env := { env0 with zOk := fun k => k == 0 }

/-- The empty initial state. -/
def st0 : St :=
  { db := ⟨[], [], [], [], [], 0⟩, tuples := [], zCalls := 0, uidCalls := 0,
    txCount := 0 }

/-- A concrete grant command. -/
def cmd0 : SetResourcePermissionCommand :=
  { actions := ["dashboards:read"], resource := "dashboards",
    resourceID := "abc", resourceAttribute := "uid", permission := "View" }

/-- Whether the `k`-th sampled UID collides with an existing role UID of
the org (the uniqueness check of `generateNewRoleUID`). -/
def roleCollides (env : Env) (orgID : Int) (st : St) (k : Nat) : Bool :=
  st.db.roles.any (fun r => r.orgID == orgID && r.uid == env.newUID k)

/-- A concrete pre-existing managed role and a state containing it. -/
def role0 : Role := ⟨0, 1, "uid0", "managed:users:7:permissions"⟩

/-- A state already holding `role0`. -/
def stWithRole : St := { st0 with db := { st0.db with roles := [role0], nextID := 1 } }

/-- A batch command targeting the reserved Grafana super-admin role. -/
def bc0 : SetResourcePermissionsCommand :=
  { userID := 0, teamID := 0, builtinRole := "Grafana Admin", cmd := cmd0 }

/-- A batch command whose subject matches no kind: user 0, team 0, and a
built-in role name that is neither valid nor the super-admin role. -/
def bskip0 : SetResourcePermissionsCommand :=
  { userID := 0, teamID := 0, builtinRole := "Nope", cmd := cmd0 }

/-- The state after one concrete user grant in the benign environment. -/
def stA : St := (SetUserResourcePermission env0 1 7 cmd0 st0).2

/-- The permission returned by that grant. -/
def pA : ResourcePermission :=
  match (SetUserResourcePermission env0 1 7 cmd0 st0).1 with
  | .ok q => q
  | .error _ => emptyResourcePermission

/-! ## Theorems -/

theorem setInsert_mem {α : Type} [DecidableEq α] (acc : List α) (x a : α) :
    a ∈ setInsert acc x ↔ a ∈ acc ∨ a = x := by
  unfold setInsert
  split
  · rename_i hx
    constructor
    · exact Or.inl
    · rintro (h | rfl)
      · exact h
      · exact hx
  · simp

theorem foldl_setInsert_mem {α : Type} [DecidableEq α] (l : List α) :
    ∀ (acc : List α) (a : α), a ∈ l.foldl setInsert acc ↔ a ∈ acc ∨ a ∈ l := by
  induction l with
  | nil => simp
  | cons x xs ih =>
    intro acc a
    rw [List.foldl_cons, ih, setInsert_mem]
    simp
    tauto

theorem setInsert_nodup {α : Type} [DecidableEq α] (acc : List α) (x : α)
    (h : acc.Nodup) : (setInsert acc x).Nodup := by
  unfold setInsert
  split
  · exact h
  · rename_i hx
    simpa [List.nodup_append] using ⟨h, hx⟩

theorem foldl_setInsert_nodup {α : Type} [DecidableEq α] (l : List α) :
    ∀ acc : List α, acc.Nodup → (l.foldl setInsert acc).Nodup := by
  induction l with
  | nil => exact fun acc h => h
  | cons x xs ih => exact fun acc h => ih _ (setInsert_nodup acc x h)

theorem dedupAppend_mem {α : Type} [DecidableEq α] (l : List α) (a : α) :
    a ∈ dedupAppend l ↔ a ∈ l := by
  unfold dedupAppend
  rw [foldl_setInsert_mem]
  simp

theorem dedupAppend_nodup {α : Type} [DecidableEq α] (l : List α) :
    (dedupAppend l).Nodup :=
  foldl_setInsert_nodup l [] List.nodup_nil

theorem desiredSet_mem (actions : List String) (a : String) :
    a ∈ desiredSet actions ↔ a ∈ actions := dedupAppend_mem actions a

theorem desiredSet_nodup (actions : List String) : (desiredSet actions).Nodup :=
  dedupAppend_nodup actions

theorem diffGo_fst_mem (cur : List Permission) :
    ∀ (m : List String) (rem : List Nat), m.Nodup → ∀ a : String,
      (a ∈ (diffGo m rem cur).1 ↔ a ∈ m ∧ ∀ p ∈ cur, p.action ≠ a) := by
  induction cur with
  | nil => intro m rem hm a; simp [diffGo]
  | cons p ps ih =>
    intro m rem hm a
    by_cases hmem : p.action ∈ m
    · rw [diffGo, if_pos hmem, ih _ _ (hm.erase _), hm.mem_erase_iff]
      simp only [List.mem_cons]
      constructor
      · rintro ⟨⟨hne, ha⟩, hps⟩
        refine ⟨ha, ?_⟩
        rintro q (rfl | hq)
        · exact fun h => hne h.symm
        · exact hps q hq
      · rintro ⟨ha, hall⟩
        exact ⟨⟨fun h => hall p (Or.inl rfl) h.symm, ha⟩,
          fun q hq => hall q (Or.inr hq)⟩
    · rw [diffGo, if_neg hmem, ih _ _ hm]
      simp only [List.mem_cons]
      constructor
      · rintro ⟨ha, hps⟩
        refine ⟨ha, ?_⟩
        rintro q (rfl | hq)
        · exact fun h => hmem (h ▸ ha)
        · exact hps q hq
      · rintro ⟨ha, hall⟩
        exact ⟨ha, fun q hq => hall q (Or.inr hq)⟩

theorem diffGo_fst_nodup (cur : List Permission) :
    ∀ (m : List String) (rem : List Nat), m.Nodup → ((diffGo m rem cur).1).Nodup := by
  induction cur with
  | nil => intro m rem hm; exact hm
  | cons p ps ih =>
    intro m rem hm
    by_cases hmem : p.action ∈ m
    · rw [diffGo, if_pos hmem]; exact ih _ _ (hm.erase _)
    · rw [diffGo, if_neg hmem]; exact ih _ _ hm

theorem contains_eq_mem {α : Type} [DecidableEq α] (l : List α) (a : α) :
    l.contains a = decide (a ∈ l) := List.elem_eq_mem a l

theorem diffGo_snd_of_nodup_actions (cur : List Permission) :
    ∀ (m : List String) (rem : List Nat), ((cur.map Permission.action).Nodup) →
      (diffGo m rem cur).2 =
        rem ++ (cur.filter (fun p => !m.contains p.action)).map Permission.id := by
  induction cur with
  | nil => intro m rem _; simp [diffGo]
  | cons p ps ih =>
    intro m rem hnd
    rw [List.map_cons, List.nodup_cons] at hnd
    obtain ⟨hp, hps⟩ := hnd
    by_cases hmem : p.action ∈ m
    · rw [diffGo, if_pos hmem, ih _ _ hps]
      have hfc : ps.filter (fun q => !(m.erase p.action).contains q.action) =
          ps.filter (fun q => !m.contains q.action) := by
        apply List.filter_congr
        intro q hq
        have hne : q.action ≠ p.action := by
          intro h
          exact hp (h ▸ List.mem_map_of_mem Permission.action hq)
        simp [contains_eq_mem, List.mem_erase_of_ne hne]
      rw [hfc, List.filter_cons]
      simp [contains_eq_mem, hmem]
    · rw [diffGo, if_neg hmem, ih _ _ hps, List.filter_cons]
      simp [contains_eq_mem, hmem]

theorem diffGo_snd_nil_desired (cur : List Permission) :
    ∀ rem : List Nat, (diffGo [] rem cur).2 = rem ++ cur.map Permission.id := by
  induction cur with
  | nil => intro rem; simp [diffGo]
  | cons p ps ih =>
    intro rem
    rw [diffGo, if_neg (List.not_mem_nil p.action), ih]
    simp

/-- C2 (amended): for the diff computed by `setResourcePermission`,
`missing` is exactly the set of desired actions occurring in no current
permission; provided the current permissions carry pairwise-distinct
action strings, `toRemove` is exactly the IDs of current permissions whose
action is absent from the desired set; and an empty desired set marks
every current permission ID for removal unconditionally.  (Without the
distinctness proviso the code also removes duplicate rows of a desired
action beyond the first — see the counterexample.) -/
theorem permissionDiff_characterization
    (acts : List String) (current : List Permission) :
    (∀ a : String, a ∈ (permissionDiff (desiredSet acts) current).1 ↔
        (a ∈ acts ∧ ∀ p ∈ current, p.action ≠ a))
    ∧ ((current.map Permission.action).Nodup →
        (permissionDiff (desiredSet acts) current).2 = specToRemove acts current)
    ∧ (acts = [] →
        (permissionDiff (desiredSet acts) current).2 = current.map Permission.id) := by
  refine ⟨?_, ?_, ?_⟩
  · intro a
    rw [permissionDiff, diffGo_fst_mem current _ _ (desiredSet_nodup acts) a,
      desiredSet_mem]
  · intro hnd
    rw [permissionDiff, diffGo_snd_of_nodup_actions current _ _ hnd,
      List.nil_append, specToRemove]
    congr 1
    apply List.filter_congr
    intro p _
    simp [contains_eq_mem, desiredSet_mem]
  · rintro rfl
    rw [permissionDiff]
    have : desiredSet [] = [] := rfl
    rw [this, diffGo_snd_nil_desired, List.nil_append]

/-- Witness for `permissionDiff_characterization` at the spec's own
example: desired = \x7bread, write\x7d, current = \x7bwrite (id 1), delete (id 2)\x7d
gives missing = \x7bread\x7d and toRemove = [2]. -/
theorem permissionDiff_characterization_witness :
    (("read" ∈ (permissionDiff (desiredSet ["read", "write"])
        [⟨1, 5, "write", "s"⟩, ⟨2, 5, "delete", "s"⟩]).1 ↔
      ("read" ∈ ["read", "write"] ∧
        ∀ p ∈ [(⟨1, 5, "write", "s"⟩ : Permission), ⟨2, 5, "delete", "s"⟩],
          p.action ≠ "read"))
    ∧ (permissionDiff (desiredSet ["read", "write"])
        [⟨1, 5, "write", "s"⟩, ⟨2, 5, "delete", "s"⟩]).2 =
        specToRemove ["read", "write"] [⟨1, 5, "write", "s"⟩, ⟨2, 5, "delete", "s"⟩])
    ∧ (permissionDiff (desiredSet ["read", "write"])
        [⟨1, 5, "write", "s"⟩, ⟨2, 5, "delete", "s"⟩]).2 = [2] := by
  have h := permissionDiff_characterization ["read", "write"]
    [⟨1, 5, "write", "s"⟩, ⟨2, 5, "delete", "s"⟩]
  exact ⟨⟨h.1 "read", h.2.1 (by decide)⟩, by decide⟩

/-- C2 counterexample: two current rows with the same action `"read"`
(ids 1 and 2) and desired set \x7b"read"\x7d.  The claim says `toRemove` is
exactly the ids whose action is absent from the desired set — here none —
but the code marks the duplicate row (id 2) for removal. -/
theorem permissionDiff_duplicate_counterexample :
    (permissionDiff (desiredSet ["read"])
        [⟨1, 5, "read", "s"⟩, ⟨2, 5, "read", "s"⟩]).2 = [2]
    ∧ specToRemove ["read"] [⟨1, 5, "read", "s"⟩, ⟨2, 5, "read", "s"⟩] = []
    ∧ (permissionDiff (desiredSet ["read"])
        [⟨1, 5, "read", "s"⟩, ⟨2, 5, "read", "s"⟩]).2 ≠
      specToRemove ["read"] [⟨1, 5, "read", "s"⟩, ⟨2, 5, "read", "s"⟩] := by
  refine ⟨by decide, by decide, by decide⟩

theorem partitionFlat_eq_filters (scope : String)
    (perms : List flatResourcePermission) :
    partitionFlat scope perms =
      (perms.filter (fun p => p.IsManaged scope),
       perms.filter (fun p => p.IsInherited scope),
       perms.filter (fun p => !strHasPre p.roleName managedRoleMarker)) := by
  induction perms with
  | nil => rfl
  | cons p ps ih =>
    rw [partitionFlat, ih]
    by_cases hpfx : strHasPre p.roleName managedRoleMarker
    · by_cases hsc : p.scope = scope
      · simp [flatResourcePermission.IsManaged, flatResourcePermission.IsInherited,
          hpfx, hsc, List.filter_cons, bne_iff_ne]
      · simp [flatResourcePermission.IsManaged, flatResourcePermission.IsInherited,
          hpfx, hsc, List.filter_cons, bne_iff_ne]
    · simp [flatResourcePermission.IsManaged, flatResourcePermission.IsInherited,
        hpfx, List.filter_cons]

/-- C5: classification and partition.  A flat row is `managed` exactly
when its role name has the managed marker and its scope equals the
queried scope; `inherited` exactly when it has the marker and the scope
differs; the remaining (`provisioned`) bucket holds exactly the rows
without the managed marker; every row satisfies precisely one of the
three cases; and `flatPermissionsToResourcePermissions` collapses exactly
these three buckets. -/
theorem flatPermissions_classification (scope : String)
    (perms : List flatResourcePermission) :
    ((partitionFlat scope perms).1 = perms.filter (fun p => p.IsManaged scope)
    ∧ (partitionFlat scope perms).2.1 = perms.filter (fun p => p.IsInherited scope)
    ∧ (partitionFlat scope perms).2.2 =
        perms.filter (fun p => !strHasPre p.roleName managedRoleMarker))
    ∧ (∀ p : flatResourcePermission,
        (p.IsManaged scope = (strHasPre p.roleName managedRoleMarker && p.scope == scope))
        ∧ (p.IsInherited scope = (strHasPre p.roleName managedRoleMarker && !(p.scope == scope)))
        ∧ ((p.IsManaged scope = true ∧ p.IsInherited scope = false)
           ∨ (p.IsManaged scope = false ∧ p.IsInherited scope = true)
           ∨ (p.IsManaged scope = false ∧ p.IsInherited scope = false
              ∧ strHasPre p.roleName managedRoleMarker = false)))
    ∧ flatPermissionsToResourcePermissions scope perms =
        (match flatPermissionsToResourcePermission scope
            (perms.filter (fun p => p.IsManaged scope)) with
         | some g => [g] | none => []) ++
        (match flatPermissionsToResourcePermission scope
            (perms.filter (fun p => p.IsInherited scope)) with
         | some g => [g] | none => []) ++
        (match flatPermissionsToResourcePermission scope
            (perms.filter (fun p => !strHasPre p.roleName managedRoleMarker)) with
         | some g => [g] | none => []) := by
  have hpart := partitionFlat_eq_filters scope perms
  refine ⟨⟨by rw [hpart], by rw [hpart], by rw [hpart]⟩, ?_, ?_⟩
  · intro p
    refine ⟨rfl, ?_, ?_⟩
    · simp [flatResourcePermission.IsInherited, bne]
    · by_cases hpfx : strHasPre p.roleName managedRoleMarker
      · by_cases hsc : p.scope = scope
        · exact Or.inl (by simp [flatResourcePermission.IsManaged,
            flatResourcePermission.IsInherited, hpfx, hsc, bne_iff_ne])
        · exact Or.inr (Or.inl (by simp [flatResourcePermission.IsManaged,
            flatResourcePermission.IsInherited, hpfx, hsc, bne_iff_ne]))
      · exact Or.inr (Or.inr (by simp [flatResourcePermission.IsManaged,
          flatResourcePermission.IsInherited, hpfx]))
  · rw [flatPermissionsToResourcePermissions, hpart]

/-- C7: a grant for user id 0 or team id 0 is rejected with the
subject-not-found error before any transaction is opened — the returned
state is the input state itself, so all stored tables and the transaction
counter are untouched. -/
theorem subjectZero_rejected_before_tx (env : Env) (orgID : Int)
    (cmd : SetResourcePermissionCommand) (st : St) :
    SetUserResourcePermission env orgID 0 cmd st = (.error .userNotFound, st)
    ∧ SetTeamResourcePermission env orgID 0 cmd st = (.error .teamNotFound, st) :=
  ⟨rfl, rfl⟩

theorem nodup_map_inj {α β : Type} [DecidableEq β] (f : α → β) (l : List α)
    (h : (l.map f).Nodup) :
    ∀ p ∈ l, ∀ q ∈ l, f p = f q → p = q := by
  induction l with
  | nil => intro p hp; exact absurd hp (List.not_mem_nil p)
  | cons x xs ih =>
    rw [List.map_cons, List.nodup_cons] at h
    obtain ⟨hx, hxs⟩ := h
    intro p hp q hq hfeq
    rcases List.mem_cons.1 hp with rfl | hp' <;>
      rcases List.mem_cons.1 hq with rfl | hq'
    · rfl
    · exact absurd (hfeq ▸ List.mem_map_of_mem f hq') hx
    · exact absurd (hfeq ▸ List.mem_map_of_mem f hp') hx
    · exact ih hxs p hp' q hq' hfeq

theorem deletePermissions_permissions (ids : List Nat) (db : DB) :
    (deletePermissions ids db).permissions =
      db.permissions.filter (fun p => !ids.contains p.id) := by
  unfold deletePermissions
  split
  · rename_i hids
    rw [List.isEmpty_iff] at hids
    subst hids
    simp [List.contains]
  · rfl

theorem deletePermissions_frame (ids : List Nat) (db : DB) :
    (deletePermissions ids db).roles = db.roles
    ∧ (deletePermissions ids db).userRoles = db.userRoles
    ∧ (deletePermissions ids db).teamRoles = db.teamRoles
    ∧ (deletePermissions ids db).builtinRoles = db.builtinRoles
    ∧ (deletePermissions ids db).nextID = db.nextID := by
  unfold deletePermissions
  split <;> exact ⟨rfl, rfl, rfl, rfl, rfl⟩

theorem delete_by_selected_ids (l : List Permission) (sel : Permission → Bool)
    (h : (l.map Permission.id).Nodup) :
    l.filter (fun p => !((l.filter sel).map Permission.id).contains p.id) =
      l.filter (fun p => !sel p) := by
  apply List.filter_congr
  intro p hp
  have hmemiff : p.id ∈ (l.filter sel).map Permission.id ↔ sel p = true := by
    constructor
    · intro hin
      obtain ⟨q, hq, hqid⟩ := List.mem_map.1 hin
      obtain ⟨hql, hqsel⟩ := List.mem_filter.1 hq
      have := nodup_map_inj Permission.id l h q hql p hp hqid
      exact this ▸ hqsel
    · intro hsel
      exact List.mem_map_of_mem Permission.id (List.mem_filter.2 ⟨hp, hsel⟩)
  cases hsel : sel p <;> simp [contains_eq_mem, hmemiff, hsel]

/-- C9: `DeleteResourcePermissions` succeeds inside one transaction and
deletes exactly the permission rows whose scope equals the given scope
and whose owning role belongs to the org (assuming the store-guaranteed
uniqueness of permission row ids), leaving every role row and every
assignment row (user_role, team_role, builtin_role) unchanged. -/
theorem DeleteResourcePermissions_exact (orgID : Int)
    (resource resourceAttribute resourceID : String) (st : St)
    (hids : (st.db.permissions.map Permission.id).Nodup) :
    (DeleteResourcePermissions orgID resource resourceAttribute resourceID st).1 =
      .ok ()
    ∧ (DeleteResourcePermissions orgID resource resourceAttribute resourceID st).2.db.permissions =
        st.db.permissions.filter (fun p =>
          !(p.scope == scopeStr resource resourceAttribute resourceID &&
            st.db.roles.any (fun r => r.id == p.roleID && r.orgID == orgID)))
    ∧ (DeleteResourcePermissions orgID resource resourceAttribute resourceID st).2.db.roles =
        st.db.roles
    ∧ (DeleteResourcePermissions orgID resource resourceAttribute resourceID st).2.db.userRoles =
        st.db.userRoles
    ∧ (DeleteResourcePermissions orgID resource resourceAttribute resourceID st).2.db.teamRoles =
        st.db.teamRoles
    ∧ (DeleteResourcePermissions orgID resource resourceAttribute resourceID st).2.db.builtinRoles =
        st.db.builtinRoles := by
  have hrun : DeleteResourcePermissions orgID resource resourceAttribute resourceID st =
      (.ok (),
       { st with
         txCount := st.txCount + 1,
         db := (deletePermissions ((st.db.permissions.filter (fun p =>
             p.scope == scopeStr resource resourceAttribute resourceID &&
             st.db.roles.any (fun r => r.id == p.roleID && r.orgID == orgID))).map
           Permission.id) st.db) }) := rfl
  rw [hrun]
  refine ⟨rfl, ?_, (deletePermissions_frame _ _).1, (deletePermissions_frame _ _).2.1,
    (deletePermissions_frame _ _).2.2.1, (deletePermissions_frame _ _).2.2.2.1⟩
  rw [deletePermissions_permissions]
  exact delete_by_selected_ids st.db.permissions _ hids

/-- Witness for `DeleteResourcePermissions_exact`: deleting at scope
`dashboards:uid:abc` in the state holding `role0` and no permissions. -/
theorem DeleteResourcePermissions_exact_witness :
    ((st0.db.permissions.map Permission.id).Nodup
    ∧ (DeleteResourcePermissions 1 "dashboards" "uid" "abc" st0).1 = .ok ())
    ∧ (DeleteResourcePermissions 1 "dashboards" "uid" "abc" st0).2.db.roles =
        st0.db.roles :=
  ⟨⟨by decide, (DeleteResourcePermissions_exact 1 "dashboards" "uid" "abc" st0
      (by decide)).1⟩,
    (DeleteResourcePermissions_exact 1 "dashboards" "uid" "abc" st0 (by decide)).2.2.1⟩

theorem generateNewRoleUIDGo_db (env : Env) (orgID : Int) :
    ∀ (fuel : Nat) (st : St), ((generateNewRoleUIDGo env orgID st fuel).2).db = st.db := by
  intro fuel
  induction fuel with
  | zero => intro st; rfl
  | succ n ih =>
    intro st
    rw [generateNewRoleUIDGo]
    split
    · exact ih _
    · rfl

/-- C4: the managed-role resolver.  (a) When a role with the given
(org, name) exists, it is returned as-is and the state — hence the adder —
is untouched.  (b) When absent and all 3 sampled UIDs collide with
existing role UIDs of the org, the operation fails with the
ID-generation-exhausted error after exactly 3 samples, with the database
(in particular the role table) unchanged.  (c) When absent and the `j`-th
sample (`j < 3`) is the first that does not collide, the role row is
inserted with that UID and the caller-supplied `onCreate` adder is then
invoked on the state containing the insert; its error, if any, is
propagated, otherwise the new role is returned. -/
theorem getOrCreateManagedRole_spec (env : Env) (orgID : Int) (name : String)
    (adder : Role → St → Except Err Unit × St) (st : St) :
    (∀ r : Role,
      st.db.roles.find? (fun r => r.orgID == orgID && r.name == name) = some r →
      getOrCreateManagedRole env orgID name adder st = (.ok r, st))
    ∧ (st.db.roles.find? (fun r => r.orgID == orgID && r.name == name) = none →
      (∀ i < 3, roleCollides env orgID st (st.uidCalls + i) = true) →
      getOrCreateManagedRole env orgID name adder st =
        (.error .idGenerationExhausted, { st with uidCalls := st.uidCalls + 3 }))
    ∧ (∀ j : Nat,
      st.db.roles.find? (fun r => r.orgID == orgID && r.name == name) = none →
      j < 3 →
      (∀ i < j, roleCollides env orgID st (st.uidCalls + i) = true) →
      roleCollides env orgID st (st.uidCalls + j) = false →
      getOrCreateManagedRole env orgID name adder st =
        (match adder ⟨st.db.nextID, orgID, env.newUID (st.uidCalls + j), name⟩
            { st with
              db := { st.db with
                      roles := (st.db.roles ++
                        [⟨st.db.nextID, orgID, env.newUID (st.uidCalls + j), name⟩]),
                      nextID := st.db.nextID + 1 },
              uidCalls := st.uidCalls + j + 1 } with
         | (.error e, st2) => (.error e, st2)
         | (.ok _, st2) =>
            (.ok ⟨st.db.nextID, orgID, env.newUID (st.uidCalls + j), name⟩, st2))) := by
  refine ⟨?_, ?_, ?_⟩
  · intro r hfind
    unfold getOrCreateManagedRole
    rw [hfind]
  · intro hfind hcoll
    have h0 := hcoll 0 (by omega)
    have h1 := hcoll 1 (by omega)
    have h2 := hcoll 2 (by omega)
    unfold roleCollides at h0 h1 h2
    simp only [Nat.add_zero] at h0
    unfold getOrCreateManagedRole
    rw [hfind]
    unfold generateNewRoleUID
    rw [generateNewRoleUIDGo, if_pos h0, generateNewRoleUIDGo, if_pos h1,
      generateNewRoleUIDGo]
    rw [show st.uidCalls + 1 + 1 = st.uidCalls + 2 from rfl, if_pos h2]
    rfl
  · intro j hfind hj hcoll hfresh
    unfold roleCollides at hcoll hfresh
    unfold getOrCreateManagedRole
    rw [hfind]
    unfold generateNewRoleUID
    interval_cases j
    · simp only [Nat.add_zero] at hfresh ⊢
      rw [generateNewRoleUIDGo, if_neg (by rw [hfresh]; exact Bool.false_ne_true)]
    · have h0 := hcoll 0 (by omega)
      simp only [Nat.add_zero] at h0
      rw [generateNewRoleUIDGo, if_pos h0, generateNewRoleUIDGo,
        if_neg (by rw [hfresh]; exact Bool.false_ne_true)]
    · have h0 := hcoll 0 (by omega)
      have h1 := hcoll 1 (by omega)
      simp only [Nat.add_zero] at h0
      rw [generateNewRoleUIDGo, if_pos h0, generateNewRoleUIDGo, if_pos h1,
        generateNewRoleUIDGo]
      rw [show st.uidCalls + 1 + 1 = st.uidCalls + 2 from rfl,
        if_neg (by rw [hfresh]; exact Bool.false_ne_true)]

/-- Witness for `getOrCreateManagedRole_spec`: with `role0` already
present, the resolver returns it unchanged without touching the state. -/
theorem getOrCreateManagedRole_spec_witness :
    getOrCreateManagedRole env0 1 "managed:users:7:permissions"
        (userAdder env0 1 7) stWithRole = (.ok role0, stWithRole) :=
  (getOrCreateManagedRole_spec env0 1 "managed:users:7:permissions"
      (userAdder env0 1 7) stWithRole).1 role0 (by decide)

/-- C8 counterexample: a batch command for the reserved super-admin role
`"Grafana Admin"` is not rejected by `SetResourcePermissions` — the call
succeeds and performs the mutations (a permission row and a builtin_role
assignment are inserted), contradicting the claim that such a command is
rejected with an error and no mutation. -/
theorem batch_grafanaAdmin_counterexample :
    (SetResourcePermissions env0 1 [bc0] st0).1.isOk = true
    ∧ (SetResourcePermissions env0 1 [bc0] st0).2.db.permissions =
        [⟨1, 0, "dashboards:read", "dashboards:uid:abc"⟩]
    ∧ (SetResourcePermissions env0 1 [bc0] st0).2.db.builtinRoles =
        [⟨1, "Grafana Admin", 0⟩] := by
  refine ⟨by decide, by decide, by decide⟩

/-- C8 (amended): the single-grant entry point
`SetBuiltInResourcePermission` rejects a built-in role name that fails
validation or equals the reserved Grafana super-admin role, with an error
and untouched state, before the transaction; the batch
`SetResourcePermissions` however admits the super-admin role name and
processes it through the built-in grant path like a valid role. -/
theorem builtin_validation_single_vs_batch (env : Env) (orgID : Int)
    (cmd : SetResourcePermissionCommand) (st : St) :
    (∀ builtInRole : String,
      (isValidRoleType builtInRole = false ∨ builtInRole = roleGrafanaAdmin) →
      SetBuiltInResourcePermission env orgID builtInRole cmd st =
        (.error (.invalidBuiltinRole builtInRole), st))
    ∧ (∀ (c : SetResourcePermissionsCommand) (p : ResourcePermission) (s' : St),
      c.userID = 0 → c.teamID = 0 → c.builtinRole = roleGrafanaAdmin →
      setBuiltInResourcePermission env orgID c.builtinRole c.cmd
          { st with txCount := st.txCount + 1 } = (.ok p, s') →
      SetResourcePermissions env orgID [c] st = (.ok [p], s')) := by
  constructor
  · intro builtInRole hbad
    unfold SetBuiltInResourcePermission
    have hcond : (!isValidRoleType builtInRole || builtInRole == roleGrafanaAdmin) = true := by
      rcases hbad with h | h
      · simp [h]
      · simp [h]
    rw [if_pos hcond]
  · intro c p s' hu ht hb hres
    unfold SetResourcePermissions withTx
    rw [setResourcePermissionsGo]
    rw [hb] at hres
    simp only [hu, ht, hb]
    simp only [show ((0 : Int) != 0) = false from rfl, Bool.false_eq_true, if_false,
      show (isValidRoleType roleGrafanaAdmin || roleGrafanaAdmin == roleGrafanaAdmin) = true
        from rfl, if_true]
    rw [hres]
    rfl

/-- Witness for `builtin_validation_single_vs_batch`: the invalid role
name `"Nope"` is rejected by the single-grant entry point with untouched
state. -/
theorem builtin_validation_single_vs_batch_witness :
    SetBuiltInResourcePermission env0 1 "Nope" cmd0 st0 =
      (.error (.invalidBuiltinRole "Nope"), st0) :=
  (builtin_validation_single_vs_batch env0 1 cmd0 st0).1 "Nope" (Or.inl (by decide))

/-- C10: a batch command whose subject matches none of the three kinds
(user id 0, team id 0, and a built-in role name that is neither a valid
role type nor the Grafana super-admin role) is silently skipped —
running the batch with the command is identical to running it without:
no error is produced for it, no mutation is performed for it, and no
entry for it appears in the returned permission list. -/
theorem batch_skips_unmatched_subject (env : Env) (orgID : Int)
    (c : SetResourcePermissionsCommand)
    (rest : List SetResourcePermissionsCommand) (st : St)
    (hu : c.userID = 0) (ht : c.teamID = 0)
    (hv : isValidRoleType c.builtinRole = false)
    (ha : c.builtinRole ≠ roleGrafanaAdmin) :
    SetResourcePermissions env orgID (c :: rest) st =
      SetResourcePermissions env orgID rest st := by
  unfold SetResourcePermissions
  congr 1
  funext s
  rw [setResourcePermissionsGo]
  have hbeq : (c.builtinRole == roleGrafanaAdmin) = false := by
    simp [ha]
  simp [hu, ht, hv, hbeq]

/-- Witness for `batch_skips_unmatched_subject` at the concrete skipped
command `bskip0`. -/
theorem batch_skips_unmatched_subject_witness :
    SetResourcePermissions env0 1 [bskip0] st0 =
      SetResourcePermissions env0 1 [] st0 :=
  batch_skips_unmatched_subject env0 1 bskip0 [] st0 (by decide) (by decide)
    (by decide) (by decide)

theorem withTx_error_db {α : Type} (st : St) (f : St → Except Err α × St)
    (e : Err) (h : (withTx st f).1 = .error e) : (withTx st f).2.db = st.db := by
  unfold withTx at h ⊢
  rcases hf : f { st with txCount := st.txCount + 1 } with ⟨r, s'⟩
  simp only [hf] at h ⊢
  cases r with
  | ok a => exact absurd h (by simp)
  | error e' => rfl

/-- C1 (amended): for every grant variant, when the operation returns an
error — in particular when the external tuple-store write fails — the
enclosing relational transaction is rolled back: the relational database
after the call equals the database before it, so the relational state
does not reflect the grant.  (Tuple-store writes issued earlier inside the
same operation are external and stand; see the counterexample run.) -/
theorem grant_error_rolls_back_relational (env : Env) (orgID : Int)
    (cmd : SetResourcePermissionCommand) (st : St) :
    (∀ (userID : Int) (e : Err),
      (SetUserResourcePermission env orgID userID cmd st).1 = .error e →
      (SetUserResourcePermission env orgID userID cmd st).2.db = st.db)
    ∧ (∀ (teamID : Int) (e : Err),
      (SetTeamResourcePermission env orgID teamID cmd st).1 = .error e →
      (SetTeamResourcePermission env orgID teamID cmd st).2.db = st.db)
    ∧ (∀ (builtInRole : String) (e : Err),
      (SetBuiltInResourcePermission env orgID builtInRole cmd st).1 = .error e →
      (SetBuiltInResourcePermission env orgID builtInRole cmd st).2.db = st.db) := by
  refine ⟨?_, ?_, ?_⟩
  · intro userID e h
    unfold SetUserResourcePermission at h ⊢
    by_cases hc : (userID == 0) = true
    · rw [if_pos hc]
    · rw [if_neg hc] at h ⊢
      exact withTx_error_db st _ e h
  · intro teamID e h
    unfold SetTeamResourcePermission at h ⊢
    by_cases hc : (teamID == 0) = true
    · rw [if_pos hc]
    · rw [if_neg hc] at h ⊢
      exact withTx_error_db st _ e h
  · intro builtInRole e h
    unfold SetBuiltInResourcePermission at h ⊢
    by_cases hc : (!isValidRoleType builtInRole || builtInRole == roleGrafanaAdmin) = true
    · rw [if_pos hc]
    · rw [if_neg hc] at h ⊢
      exact withTx_error_db st _ e h

/-- Witness for `grant_error_rolls_back_relational`: in the environment
whose second tuple-store write fails, the concrete user grant returns the
sync-write error and the relational database is rolled back to its
initial (empty) contents. -/
theorem grant_error_rolls_back_relational_witness :
    ((SetUserResourcePermission envFail 1 7 cmd0 st0).1 = .error .syncWriteError)
    ∧ (SetUserResourcePermission envFail 1 7 cmd0 st0).2.db = st0.db :=
  ⟨by decide,
    (grant_error_rolls_back_relational envFail 1 cmd0 st0).1 7 .syncWriteError
      (by decide)⟩

/-- C1 counterexample: a concrete user grant whose assignment-tuple write
succeeds and whose grant-tuple write fails.  The caller receives the
sync-write error, but — contrary to the claim — the relational state does
not reflect the grant: the permission, role and assignment tables are all
empty after the call (the transaction rolled back), while the external
tuple store retains the assignee tuple written before the failure. -/
theorem grant_syncfail_counterexample :
    (SetUserResourcePermission envFail 1 7 cmd0 st0).1 = .error .syncWriteError
    ∧ (SetUserResourcePermission envFail 1 7 cmd0 st0).2.db.permissions = []
    ∧ (SetUserResourcePermission envFail 1 7 cmd0 st0).2.db.roles = []
    ∧ (SetUserResourcePermission envFail 1 7 cmd0 st0).2.db.userRoles = []
    ∧ (SetUserResourcePermission envFail 1 7 cmd0 st0).2.tuples =
        [⟨"user:7", "assignee", "role:uid0"⟩] := by
  refine ⟨by decide, by decide, by decide, by decide, by decide⟩

theorem decDigit_mem_digitChars (d : Nat) : decDigit d ∈ digitChars := by
  unfold decDigit
  have h : d % 10 < 10 := Nat.mod_lt _ (by omega)
  generalize d % 10 = k at h
  interval_cases k <;> decide

theorem natCharsAux_digits :
    ∀ (fuel n : Nat), ∀ c ∈ natCharsAux fuel n, c ∈ digitChars := by
  intro fuel
  induction fuel with
  | zero => intro n c hc; simp [natCharsAux] at hc
  | succ f ih =>
    intro n c hc
    rw [natCharsAux] at hc
    split at hc
    · rw [List.mem_singleton] at hc
      exact hc ▸ decDigit_mem_digitChars n
    · rcases List.mem_append.1 hc with h | h
      · exact ih _ c h
      · rw [List.mem_singleton] at h
        exact h ▸ decDigit_mem_digitChars n

theorem intChars_mem_dm (i : Int) : ∀ c ∈ intChars i, c ∈ dmChars := by
  cases i with
  | ofNat n =>
    intro c hc
    exact List.mem_cons_of_mem _ (natCharsAux_digits _ _ c hc)
  | negSucc n =>
    intro c hc
    rcases List.mem_cons.1 hc with rfl | hc'
    · exact List.mem_cons_self _ _
    · exact List.mem_cons_of_mem _ (natCharsAux_digits _ _ c hc')

theorem dm_boundary : ∀ (d1 d2 r1 r2 : List Char) (c1 c2 : Char),
    (∀ c ∈ d1, c ∈ dmChars) → (∀ c ∈ d2, c ∈ dmChars) →
    c1 ∉ dmChars → c2 ∉ dmChars →
    d1 ++ c1 :: r1 = d2 ++ c2 :: r2 → d1 = d2 ∧ c1 = c2 ∧ r1 = r2 := by
  intro d1
  induction d1 with
  | nil =>
    intro d2 r1 r2 c1 c2 h1 h2 hc1 hc2 heq
    cases d2 with
    | nil =>
      simp only [List.nil_append] at heq
      rw [List.cons.injEq] at heq
      exact ⟨rfl, heq.1, heq.2⟩
    | cons y ys =>
      simp only [List.nil_append, List.cons_append, List.cons.injEq] at heq
      exact absurd (heq.1 ▸ h2 y (List.mem_cons_self _ _)) hc1
  | cons x xs ih =>
    intro d2 r1 r2 c1 c2 h1 h2 hc1 hc2 heq
    cases d2 with
    | nil =>
      simp only [List.nil_append, List.cons_append, List.cons.injEq] at heq
      exact absurd (heq.1 ▸ h1 x (List.mem_cons_self _ _)) hc2
    | cons y ys =>
      simp only [List.cons_append, List.cons.injEq] at heq
      obtain ⟨rfl, heq2⟩ := heq
      obtain ⟨hd, hc, hr⟩ := ih ys r1 r2 c1 c2
        (fun c hc => h1 c (List.mem_cons_of_mem _ hc))
        (fun c hc => h2 c (List.mem_cons_of_mem _ hc)) hc1 hc2 heq2
      exact ⟨by rw [hd], hc, hr⟩

theorem intChars_split (u1 u2 : Int) (r1 r2 : List Char) (c1 c2 : Char)
    (hc1 : c1 ∉ dmChars) (hc2 : c2 ∉ dmChars)
    (h : intChars u1 ++ c1 :: r1 = intChars u2 ++ c2 :: r2) :
    intChars u1 = intChars u2 ∧ c1 = c2 ∧ r1 = r2 :=
  dm_boundary _ _ _ _ _ _ (intChars_mem_dm u1) (intChars_mem_dm u2) hc1 hc2 h

theorem membershipTuple_key_inj (m1 m2 : Membership) (t1 t2 : Tuple)
    (h1 : t1 ∈ membershipTuples m1) (h2 : t2 ∈ membershipTuples m2)
    (hk : tupleKeyStr t1 = tupleKeyStr t2) : t1 = t2 := by
  have hd := congrArg String.data hk
  simp only [membershipTuples, List.mem_cons, List.mem_singleton,
    List.not_mem_nil, or_false] at h1 h2
  have hm : ('m' : Char) ∉ dmChars := by decide
  have ha : ('a' : Char) ∉ dmChars := by decide
  rcases h1 with rfl | rfl <;> rcases h2 with rfl | rfl
  · simp only [tupleKeyStr, intStr,
      show ∀ s t : String, (s ++ t).data = s.data ++ t.data from fun _ _ => rfl,
      show ∀ l : List Char, (String.mk l).data = l from fun _ => rfl,
      show "user:".data = ['u', 's', 'e', 'r', ':'] from rfl,
      show "member".data = ['m', 'e', 'm', 'b', 'e', 'r'] from rfl,
      show "org:".data = ['o', 'r', 'g', ':'] from rfl,
      List.append_assoc, List.cons_append, List.nil_append,
      List.cons.injEq, true_and] at hd
    obtain ⟨hu, -, hrest⟩ := intChars_split _ _ _ _ _ _ hm hm hd
    simp only [List.cons.injEq, true_and] at hrest
    simp only [Tuple.mk.injEq]
    exact ⟨congrArg (fun l => "user:" ++ String.mk l) hu, trivial,
      congrArg (fun l => "org:" ++ String.mk l) hrest⟩
  · simp only [tupleKeyStr, intStr,
      show ∀ s t : String, (s ++ t).data = s.data ++ t.data from fun _ _ => rfl,
      show ∀ l : List Char, (String.mk l).data = l from fun _ => rfl,
      show "user:".data = ['u', 's', 'e', 'r', ':'] from rfl,
      show "member".data = ['m', 'e', 'm', 'b', 'e', 'r'] from rfl,
      show "assignee".data = ['a', 's', 's', 'i', 'g', 'n', 'e', 'e'] from rfl,
      show "org:".data = ['o', 'r', 'g', ':'] from rfl,
      List.append_assoc, List.cons_append, List.nil_append,
      List.cons.injEq, true_and] at hd
    obtain ⟨-, hca, -⟩ := intChars_split _ _ _ _ _ _ hm ha hd
    exact absurd hca (by decide)
  · simp only [tupleKeyStr, intStr,
      show ∀ s t : String, (s ++ t).data = s.data ++ t.data from fun _ _ => rfl,
      show ∀ l : List Char, (String.mk l).data = l from fun _ => rfl,
      show "user:".data = ['u', 's', 'e', 'r', ':'] from rfl,
      show "member".data = ['m', 'e', 'm', 'b', 'e', 'r'] from rfl,
      show "assignee".data = ['a', 's', 's', 'i', 'g', 'n', 'e', 'e'] from rfl,
      show "org:".data = ['o', 'r', 'g', ':'] from rfl,
      List.append_assoc, List.cons_append, List.nil_append,
      List.cons.injEq, true_and] at hd
    obtain ⟨-, hca, -⟩ := intChars_split _ _ _ _ _ _ ha hm hd
    exact absurd hca (by decide)
  · simp only [tupleKeyStr, intStr,
      show ∀ s t : String, (s ++ t).data = s.data ++ t.data from fun _ _ => rfl,
      show ∀ l : List Char, (String.mk l).data = l from fun _ => rfl,
      show "user:".data = ['u', 's', 'e', 'r', ':'] from rfl,
      show "assignee".data = ['a', 's', 's', 'i', 'g', 'n', 'e', 'e'] from rfl,
      List.append_assoc, List.cons_append, List.nil_append,
      List.cons.injEq, true_and] at hd
    obtain ⟨hu, -, hrest⟩ := intChars_split _ _ _ _ _ _ ha ha hd
    simp only [List.cons.injEq, true_and] at hrest
    simp only [Tuple.mk.injEq]
    exact ⟨congrArg (fun l => "user:" ++ String.mk l) hu, trivial,
      congrArg String.mk hrest⟩

theorem upsertTuple_keys (m : List (String × Tuple)) (t : Tuple) :
    (upsertTuple m t).map Prod.fst = setInsert (m.map Prod.fst) (tupleKeyStr t) := by
  unfold upsertTuple setInsert
  by_cases h : (m.any fun kv => kv.1 == tupleKeyStr t) = true
  · rw [if_pos h]
    have hmem : tupleKeyStr t ∈ m.map Prod.fst := by
      rw [List.any_eq_true] at h
      obtain ⟨kv, hkv, hbeq⟩ := h
      rw [beq_iff_eq] at hbeq
      exact hbeq ▸ List.mem_map_of_mem Prod.fst hkv
    rw [if_pos hmem, List.map_map]
    apply List.map_congr_left
    intro kv _
    show (if (kv.1 == tupleKeyStr t) = true then (kv.1, t) else kv).1 = kv.1
    by_cases hk : (kv.1 == tupleKeyStr t) = true
    · rw [if_pos hk]
    · rw [if_neg hk]
  · rw [if_neg h]
    have hmem : tupleKeyStr t ∉ m.map Prod.fst := by
      intro hmem
      obtain ⟨kv, hkv, hfst⟩ := List.mem_map.1 hmem
      exact h (List.any_eq_true.2 ⟨kv, hkv, beq_iff_eq.2 hfst⟩)
    rw [if_neg hmem, List.map_append]
    rfl

theorem foldl_upsert_keys (ts : List Tuple) :
    ∀ m : List (String × Tuple),
      (ts.foldl upsertTuple m).map Prod.fst =
        (ts.map tupleKeyStr).foldl setInsert (m.map Prod.fst) := by
  induction ts with
  | nil => intro m; rfl
  | cons t ts ih =>
    intro m
    rw [List.foldl_cons, ih, List.map_cons, List.foldl_cons, upsertTuple_keys]

theorem buildTupleMap_keys (rows : List Membership) :
    (buildTupleMap rows).map Prod.fst =
      dedupAppend ((rows.flatMap membershipTuples).map tupleKeyStr) := by
  unfold buildTupleMap dedupAppend
  exact foldl_upsert_keys _ []

theorem list_toFinset_map {α β : Type} [DecidableEq α] [DecidableEq β]
    (l : List α) (f : α → β) : (l.map f).toFinset = l.toFinset.image f := by
  ext b
  simp [List.mem_toFinset, Finset.mem_image, List.mem_map]

theorem dedupAppend_length {α : Type} [DecidableEq α] (l : List α) :
    (dedupAppend l).length = l.toFinset.card := by
  have hset : (dedupAppend l).toFinset = l.toFinset := by
    ext a
    simp [List.mem_toFinset, dedupAppend_mem]
  rw [← List.toFinset_card_of_nodup (dedupAppend_nodup l), hset]

theorem buildTupleMap_length (rows : List Membership) :
    (buildTupleMap rows).length = (rows.flatMap membershipTuples).toFinset.card := by
  have h1 : (buildTupleMap rows).length =
      ((buildTupleMap rows).map Prod.fst).length := (List.length_map _ _).symm
  rw [h1, buildTupleMap_keys, dedupAppend_length, list_toFinset_map]
  apply Finset.card_image_of_injOn
  intro t1 ht1 t2 ht2 hk
  rw [Finset.mem_coe, List.mem_toFinset, List.mem_flatMap] at ht1 ht2
  obtain ⟨m1, hm1, hin1⟩ := ht1
  obtain ⟨m2, hm2, hin2⟩ := ht2
  exact membershipTuple_key_inj m1 m2 t1 t2 hin1 hin2 hk

theorem chunksOf100_bounded {α : Type} :
    ∀ (n : Nat) (xs : List α), xs.length ≤ n →
      (chunksOf100 xs).length = (xs.length + 99) / 100
      ∧ (∀ b ∈ chunksOf100 xs, b.length ≤ 100)
      ∧ (chunksOf100 xs).flatten = xs := by
  intro n
  induction n with
  | zero =>
    intro xs h
    have hnil : xs = [] := List.eq_nil_of_length_eq_zero (Nat.le_zero.1 h)
    subst hnil
    refine ⟨by rw [chunksOf100]; simp, ?_, by rw [chunksOf100]; simp⟩
    intro b hb
    rw [chunksOf100] at hb
    simp at hb
  | succ n ih =>
    intro xs h
    by_cases hemp : xs.isEmpty
    · rw [List.isEmpty_iff] at hemp
      subst hemp
      refine ⟨by rw [chunksOf100]; simp, ?_, by rw [chunksOf100]; simp⟩
      intro b hb
      rw [chunksOf100] at hb
      simp at hb
    · rw [chunksOf100, if_neg hemp]
      have hlen : (xs.drop 100).length ≤ n := by
        rw [List.length_drop]
        have hpos : 0 < xs.length := by
          cases xs with
          | nil => exact absurd rfl hemp
          | cons a l => simp
        omega
      obtain ⟨ihl, ihb, ihf⟩ := ih (xs.drop 100) hlen
      refine ⟨?_, ?_, ?_⟩
      · rw [List.length_cons, ihl, List.length_drop]
        have hpos : 0 < xs.length := by
          cases xs with
          | nil => exact absurd rfl hemp
          | cons a l => simp
        omega
      · intro b hb
        rcases List.mem_cons.1 hb with rfl | hb'
        · exact le_trans (List.length_take_le 100 xs) le_rfl
        · exact ihb b hb'
      · rw [List.flatten_cons, ihf]
        exact List.take_append_drop 100 xs

theorem writeBatchesFrom_allok (ok : Nat → Bool) (hok : ∀ k, ok k = true) :
    ∀ (bs : List (List Tuple)) (k : Nat) (w : List Tuple),
      writeBatchesFrom ok k w bs = (.ok (), w ++ bs.flatten) := by
  intro bs
  induction bs with
  | nil => intro k w; simp [writeBatchesFrom]
  | cons b bs ih =>
    intro k w
    rw [writeBatchesFrom, if_pos (hok k), ih, List.flatten_cons, List.append_assoc]

theorem writeBatchesFrom_fail (ok : Nat → Bool) :
    ∀ (bs : List (List Tuple)) (k0 : Nat) (w : List Tuple) (j : Nat),
      (∀ i < j, ok (k0 + i) = true) → ok (k0 + j) = false → j < bs.length →
      writeBatchesFrom ok k0 w bs =
        (.error .syncWriteError, w ++ (bs.take j).flatten) := by
  intro bs
  induction bs with
  | nil => intro k0 w j _ _ hj; simp at hj
  | cons b bs ih =>
    intro k0 w j hpre hfail hj
    cases j with
    | zero =>
      rw [writeBatchesFrom,
        if_neg (by rw [Nat.add_zero] at hfail; rw [hfail]; exact Bool.false_ne_true)]
      simp
    | succ j =>
      have h0 : ok k0 = true := by
        have := hpre 0 (by omega)
        rwa [Nat.add_zero] at this
      rw [writeBatchesFrom, if_pos h0]
      rw [ih (k0 + 1) (w ++ b) j
        (fun i hi => by
          have := hpre (i + 1) (by omega)
          rwa [show k0 + (i + 1) = k0 + 1 + i by omega] at this)
        (by rwa [show k0 + 1 + j = k0 + (j + 1) by omega])
        (by simpa using hj)]
      rw [List.take_succ_cons, List.flatten_cons, List.append_assoc]

/-- C6: the full org resync.  The deduplicated tuple list built from the
membership rows (map keyed on the concatenation of User, Relation and
Object) has exactly one entry per distinct (user, relation, object)
triple; it is split into `ceil(N/100)` sequential batches of at most 100
tuples; when every batch write succeeds the external store receives
exactly the deduplicated tuples; and when batch `j` is the first to fail,
the error is returned, the batches after `j` are not attempted, and
exactly the first `j` batches remain written. -/
theorem syncOrgMembership_spec (ok : Nat → Bool) (rows : List Membership) :
    ((buildTupleMap rows).map Prod.snd).length =
        (rows.flatMap membershipTuples).toFinset.card
    ∧ (chunksOf100 ((buildTupleMap rows).map Prod.snd)).length =
        (((buildTupleMap rows).map Prod.snd).length + 99) / 100
    ∧ (∀ b ∈ chunksOf100 ((buildTupleMap rows).map Prod.snd), b.length ≤ 100)
    ∧ ((∀ k, ok k = true) →
        syncOrgMembership ok rows = (.ok (), (buildTupleMap rows).map Prod.snd))
    ∧ (∀ j : Nat, (∀ i < j, ok i = true) → ok j = false →
        j < (chunksOf100 ((buildTupleMap rows).map Prod.snd)).length →
        syncOrgMembership ok rows =
          (.error .syncWriteError,
            ((chunksOf100 ((buildTupleMap rows).map Prod.snd)).take j).flatten)) := by
  obtain ⟨hcl, hcb, hcf⟩ := chunksOf100_bounded
    ((buildTupleMap rows).map Prod.snd).length ((buildTupleMap rows).map Prod.snd)
    le_rfl
  refine ⟨?_, hcl, hcb, ?_, ?_⟩
  · rw [List.length_map]
    exact buildTupleMap_length rows
  · intro hok
    unfold syncOrgMembership
    rw [writeBatchesFrom_allok ok hok, List.nil_append, hcf]
  · intro j hpre hfail hj
    unfold syncOrgMembership
    rw [writeBatchesFrom_fail ok _ 0 [] j
      (fun i hi => by simpa using hpre i hi) (by simpa using hfail) hj,
      List.nil_append]

/-- Witness for `syncOrgMembership_spec`: with one membership row and an
always-succeeding engine, the resync writes exactly the deduplicated
tuples. -/
theorem syncOrgMembership_spec_witness :
    syncOrgMembership (fun _ => true) [⟨1, 1, "Admin"⟩] =
      (.ok (), (buildTupleMap [⟨1, 1, "Admin"⟩]).map Prod.snd) :=
  (syncOrgMembership_spec (fun _ => true) [⟨1, 1, "Admin"⟩]).2.2.2.1 (fun _ => rfl)

theorem diffGo_snd_acc (cur : List Permission) :
    ∀ (m : List String) (rem : List Nat),
      (diffGo m rem cur).2 = rem ++ (diffGo m [] cur).2 := by
  induction cur with
  | nil => intro m rem; simp [diffGo]
  | cons p ps ih =>
    intro m rem
    by_cases hm : p.action ∈ m
    · rw [diffGo, if_pos hm, diffGo, if_pos hm, ih]
    · rw [diffGo, if_neg hm, diffGo, if_neg hm, ih _ (rem ++ [p.id]),
        ih _ ([] ++ [p.id])]
      simp

theorem diffGo_snd_sub (cur : List Permission) :
    ∀ (m : List String) (rem : List Nat), ∀ i ∈ (diffGo m rem cur).2,
      i ∈ rem ∨ ∃ p ∈ cur, p.id = i := by
  induction cur with
  | nil => intro m rem i hi; exact Or.inl hi
  | cons p ps ih =>
    intro m rem i hi
    by_cases hm : p.action ∈ m
    · rw [diffGo, if_pos hm] at hi
      rcases ih _ _ i hi with h | ⟨q, hq, hqi⟩
      · exact Or.inl h
      · exact Or.inr ⟨q, List.mem_cons_of_mem _ hq, hqi⟩
    · rw [diffGo, if_neg hm] at hi
      rcases ih _ _ i hi with h | ⟨q, hq, hqi⟩
      · rcases List.mem_append.1 h with h' | h'
        · exact Or.inl h'
        · rw [List.mem_singleton] at h'
          exact Or.inr ⟨p, List.mem_cons_self _ _, h'.symm⟩
      · exact Or.inr ⟨q, List.mem_cons_of_mem _ hq, hqi⟩

theorem diffGo_kept (cur : List Permission) :
    ∀ m : List String, m.Nodup → ((cur.map Permission.id).Nodup) →
      (((cur.filter (fun q => !(diffGo m [] cur).2.contains q.id)).map
          Permission.action).Nodup
      ∧ (∀ q ∈ cur.filter (fun q => !(diffGo m [] cur).2.contains q.id),
          q.action ∈ m)
      ∧ (∀ a ∈ m, (∃ q ∈ cur, q.action = a) →
          a ∈ (cur.filter (fun q => !(diffGo m [] cur).2.contains q.id)).map
            Permission.action)) := by
  induction cur with
  | nil =>
    intro m hm hid
    refine ⟨List.nodup_nil, ?_, ?_⟩
    · intro q hq; simp at hq
    · intro a _ ⟨q, hq, _⟩; simp at hq
  | cons p ps ih =>
    intro m hm hid
    rw [List.map_cons, List.nodup_cons] at hid
    obtain ⟨hpid, hpsid⟩ := hid
    by_cases hma : p.action ∈ m
    · have hrm : (diffGo m [] (p :: ps)).2 = (diffGo (m.erase p.action) [] ps).2 := by
        rw [diffGo, if_pos hma]
      have hpkeep : (!(diffGo m [] (p :: ps)).2.contains p.id) = true := by
        rw [hrm]
        rw [Bool.not_eq_true', ← Bool.not_eq_true]
        intro hcon
        rw [contains_eq_mem, decide_eq_true_iff] at hcon
        rcases diffGo_snd_sub ps _ _ p.id hcon with h | ⟨q, hq, hqi⟩
        · simp at h
        · exact hpid (hqi ▸ List.mem_map_of_mem Permission.id hq)
      have hfc : ps.filter (fun q => !(diffGo m [] (p :: ps)).2.contains q.id) =
          ps.filter (fun q => !(diffGo (m.erase p.action) [] ps).2.contains q.id) := by
        rw [hrm]
      obtain ⟨iha, ihb, ihc⟩ := ih (m.erase p.action) (hm.erase _) hpsid
      rw [List.filter_cons, if_pos hpkeep]
      refine ⟨?_, ?_, ?_⟩
      · rw [List.map_cons, List.nodup_cons, hfc]
        constructor
        · intro hcon
          obtain ⟨q, hq, hqa⟩ := List.mem_map.1 hcon
          have := ihb q hq
          rw [hqa, hm.mem_erase_iff] at this
          exact this.1 rfl
        · exact iha
      · intro q hq
        rcases List.mem_cons.1 hq with rfl | hq'
        · exact hma
        · rw [hfc] at hq'
          have := ihb q hq'
          exact (hm.mem_erase_iff.1 this).2
      · intro a ha ⟨q, hq, hqa⟩
        rw [List.map_cons]
        rcases List.mem_cons.1 hq with rfl | hq'
        · rw [← hqa]
          exact List.mem_cons_self _ _
        · by_cases hap : a = p.action
          · exact hap ▸ List.mem_cons_self _ _
          · have ham : a ∈ m.erase p.action := hm.mem_erase_iff.2 ⟨hap, ha⟩
            rw [hfc]
            exact List.mem_cons_of_mem _ (ihc a ham ⟨q, hq', hqa⟩)
    · have hrm : (diffGo m [] (p :: ps)).2 = p.id :: (diffGo m [] ps).2 := by
        rw [diffGo, if_neg hma, diffGo_snd_acc]
        rfl
      have hpdrop : (!(diffGo m [] (p :: ps)).2.contains p.id) = false := by
        rw [hrm]
        simp [contains_eq_mem]
      have hfc : ps.filter (fun q => !(diffGo m [] (p :: ps)).2.contains q.id) =
          ps.filter (fun q => !(diffGo m [] ps).2.contains q.id) := by
        rw [hrm]
        apply List.filter_congr
        intro q hq
        have hne : q.id ≠ p.id := by
          intro h
          exact hpid (h ▸ List.mem_map_of_mem Permission.id hq)
        simp [contains_eq_mem, hne]
      obtain ⟨iha, ihb, ihc⟩ := ih m hm hpsid
      rw [List.filter_cons, if_neg (by rw [hpdrop]; exact Bool.false_ne_true), hfc]
      refine ⟨iha, ihb, ?_⟩
      · intro a ha ⟨q, hq, hqa⟩
        rcases List.mem_cons.1 hq with rfl | hq'
        · exact absurd (hqa ▸ ha) hma
        · exact ihc a ha ⟨q, hq', hqa⟩

theorem zWrite_db (env : Env) (st : St) (ts : List Tuple) :
    ((zWrite env st ts).2).db = st.db := by
  unfold zWrite
  split <;> rfl

theorem userAdder_preserves (env : Env) (orgID userID : Int) (role : Role)
    (s : St) :
    ((userAdder env orgID userID role s).2).db.roles = s.db.roles
    ∧ ((userAdder env orgID userID role s).2).db.permissions = s.db.permissions := by
  unfold userAdder
  split
  · exact ⟨rfl, rfl⟩
  · rw [zWrite_db]
    exact ⟨rfl, rfl⟩

theorem teamAdder_preserves (env : Env) (orgID teamID : Int) (role : Role)
    (s : St) :
    ((teamAdder env orgID teamID role s).2).db.roles = s.db.roles
    ∧ ((teamAdder env orgID teamID role s).2).db.permissions = s.db.permissions := by
  unfold teamAdder
  split
  · exact ⟨rfl, rfl⟩
  · rw [zWrite_db]
    exact ⟨rfl, rfl⟩

theorem builtInRoleAdder_preserves (env : Env) (orgID : Int)
    (builtinRole : String) (role : Role) (s : St) :
    ((builtInRoleAdder env orgID builtinRole role s).2).db.roles = s.db.roles
    ∧ ((builtInRoleAdder env orgID builtinRole role s).2).db.permissions =
        s.db.permissions := by
  unfold builtInRoleAdder
  split
  · exact ⟨rfl, rfl⟩
  · rw [zWrite_db]
    exact ⟨rfl, rfl⟩

theorem createPermissions_roles (env : Env) (roleID : Nat)
    (resource resourceID resourceAttribute : String) (actions : List String)
    (permission : String) (db : DB) :
    (createPermissions env roleID resource resourceID resourceAttribute actions
      permission db).roles = db.roles := by
  unfold createPermissions
  split <;> rfl

theorem createPermissions_permissions (env : Env) (roleID : Nat)
    (resource resourceID resourceAttribute : String) (actions : List String)
    (permission : String) (db : DB)
    (hflag : env.flagAccessActionSets = false) :
    (createPermissions env roleID resource resourceID resourceAttribute actions
        permission db).permissions =
      db.permissions ++
        freshRows roleID (scopeStr resource resourceAttribute resourceID) actions
          db.nextID := by
  unfold createPermissions
  split
  · rename_i hemp
    rw [List.isEmpty_iff] at hemp
    subst hemp
    rw [freshRows, List.append_nil]
  · rw [hflag]
    rfl

theorem freshRows_map_action (roleID : Nat) (scope : String) :
    ∀ (acts : List String) (start : Nat),
      (freshRows roleID scope acts start).map Permission.action = acts := by
  intro acts
  induction acts with
  | nil => intro start; rfl
  | cons a rest ih =>
    intro start
    rw [freshRows, List.map_cons, ih]

theorem freshRows_fields (roleID : Nat) (scope : String) :
    ∀ (acts : List String) (start : Nat), ∀ q ∈ freshRows roleID scope acts start,
      q.roleID = roleID ∧ q.scope = scope := by
  intro acts
  induction acts with
  | nil => intro start q hq; simp [freshRows] at hq
  | cons a rest ih =>
    intro start q hq
    rw [freshRows] at hq
    rcases List.mem_cons.1 hq with rfl | hq'
    · exact ⟨rfl, rfl⟩
    · exact ih _ q hq'

theorem getOrCreateManagedRole_ok
    (env : Env) (orgID : Int) (name : String)
    (adder : Role → St → Except Err Unit × St)
    (hadder : ∀ (role : Role) (s : St),
      ((adder role s).2).db.roles = s.db.roles
      ∧ ((adder role s).2).db.permissions = s.db.permissions)
    (st : St) (role : Role) (st1 : St)
    (h : getOrCreateManagedRole env orgID name adder st = (.ok role, st1)) :
    st1.db.roles.find? (fun r => r.orgID == orgID && r.name == name) = some role
    ∧ st1.db.permissions = st.db.permissions := by
  rcases hfind : st.db.roles.find? (fun r => r.orgID == orgID && r.name == name) with
    _ | r
  · rcases hgen : generateNewRoleUID env orgID st with ⟨res2, st2⟩
    cases res2 with
    | error e =>
      have hrun : getOrCreateManagedRole env orgID name adder st = (.error e, st2) := by
        unfold getOrCreateManagedRole
        rw [hfind, hgen]
      rw [hrun] at h
      exact absurd (congrArg Prod.fst h) (by simp)
    | ok uid =>
      have hdb2 : st2.db = st.db := by
        have hg := generateNewRoleUIDGo_db env orgID 3 st
        rw [show generateNewRoleUIDGo env orgID st 3 = (Except.ok uid, st2) from hgen]
          at hg
        exact hg
      rcases hadd : adder ⟨st2.db.nextID, orgID, uid, name⟩
          { st2 with db := { st2.db with
              roles := (st2.db.roles ++ [⟨st2.db.nextID, orgID, uid, name⟩]),
              nextID := st2.db.nextID + 1 } } with ⟨res3, st3⟩
      have hrun : getOrCreateManagedRole env orgID name adder st =
          (match (res3, st3) with
           | (.error e, s) => (.error e, s)
           | (.ok _, s) => (.ok ⟨st2.db.nextID, orgID, uid, name⟩, s)) := by
        unfold getOrCreateManagedRole
        rw [hfind, hgen]
        dsimp only
        rw [hadd]
      cases res3 with
      | error e =>
        rw [hrun] at h
        exact absurd (congrArg Prod.fst h) (by simp)
      | ok u =>
        rw [hrun] at h
        rw [Prod.mk.injEq] at h
        obtain ⟨h1, h2⟩ := h
        have hrole : (⟨st2.db.nextID, orgID, uid, name⟩ : Role) = role :=
          Except.ok.inj h1
        obtain ⟨har, hap⟩ := hadder ⟨st2.db.nextID, orgID, uid, name⟩
          { st2 with db := { st2.db with
              roles := (st2.db.roles ++ [⟨st2.db.nextID, orgID, uid, name⟩]),
              nextID := st2.db.nextID + 1 } }
        rw [hadd] at har hap
        rw [← h2]
        constructor
        · rw [har]
          show (st2.db.roles ++ [(⟨st2.db.nextID, orgID, uid, name⟩ : Role)]).find?
            (fun r => r.orgID == orgID && r.name == name) = some role
          have hfind2 : st2.db.roles.find?
              (fun r => r.orgID == orgID && r.name == name) = none := by
            rw [hdb2]
            exact hfind
          rw [List.find?_append, hfind2, Option.none_or, List.find?_cons]
          have hmatch : ((⟨st2.db.nextID, orgID, uid, name⟩ : Role).orgID == orgID &&
              (⟨st2.db.nextID, orgID, uid, name⟩ : Role).name == name) = true := by
            simp
          rw [hmatch]
          show some _ = some role
          rw [hrole]
        · rw [hap, hdb2]
  · have hrun : getOrCreateManagedRole env orgID name adder st = (.ok r, st) := by
      unfold getOrCreateManagedRole
      rw [hfind]
    rw [hrun] at h
    rw [Prod.mk.injEq] at h
    obtain ⟨h1, h2⟩ := h
    rw [← h2, ← Except.ok.inj h1, hfind]
    exact ⟨rfl, rfl⟩

theorem setResourcePermission_ok_post
    (env : Env) (orgID : Int) (roleName : String)
    (adder : Role → St → Except Err Unit × St)
    (hadder : ∀ (role : Role) (s : St),
      ((adder role s).2).db.roles = s.db.roles
      ∧ ((adder role s).2).db.permissions = s.db.permissions)
    (cmd : SetResourcePermissionCommand) (st : St)
    (p : ResourcePermission) (st' : St)
    (hflag : env.flagAccessActionSets = false)
    (hWF : (st.db.permissions.map Permission.id).Nodup)
    (hok : setResourcePermission env orgID roleName adder cmd st = (.ok p, st')) :
    ∃ ρ : Role,
      st'.db.roles.find? (fun r => r.orgID == orgID && r.name == roleName) = some ρ
      ∧ ((currentPerms st'.db ρ.id (cmdScope cmd)).map Permission.action).Nodup
      ∧ ∀ a : String,
          a ∈ (currentPerms st'.db ρ.id (cmdScope cmd)).map Permission.action ↔
            a ∈ cmd.actions := by
  rcases hga : getOrCreateManagedRole env orgID roleName adder st with ⟨res1, st1⟩
  cases res1 with
  | error e =>
    have hrun : setResourcePermission env orgID roleName adder cmd st =
        (.error e, st1) := by
      unfold setResourcePermission
      rw [hga]
    rw [hrun] at hok
    exact absurd (congrArg Prod.fst hok) (by simp)
  | ok role =>
    obtain ⟨hfind1, hperm1⟩ :=
      getOrCreateManagedRole_ok env orgID roleName adder hadder st role st1 hga
    rcases hdiff : permissionDiff (desiredSet cmd.actions)
        (currentPerms st1.db role.id (cmdScope cmd)) with ⟨missing, remove⟩
    rcases hz : zWrite env
        { { st1 with db := deletePermissions remove st1.db } with
          db := (createPermissions env role.id cmd.resource
            cmd.resourceID cmd.resourceAttribute missing cmd.permission
            (deletePermissions remove st1.db)) }
        (grantTuples env role cmd) with ⟨res2, st2⟩
    cases res2 with
    | error e =>
      have hrun : setResourcePermission env orgID roleName adder cmd st =
          (.error e, st2) := by
        unfold setResourcePermission
        rw [hga]
        dsimp only
        rw [hdiff]
        dsimp only
        rw [hz]
      rw [hrun] at hok
      exact absurd (congrArg Prod.fst hok) (by simp)
    | ok u =>
      have hrun : setResourcePermission env orgID roleName adder cmd st =
          (match flatPermissionsToResourcePermission (cmdScope cmd)
              (getPermissions st2.db cmd.resource cmd.resourceID
                cmd.resourceAttribute role.id) with
           | none => (.ok emptyResourcePermission, st2)
           | some q => (.ok q, st2)) := by
        unfold setResourcePermission
        rw [hga]
        dsimp only
        rw [hdiff]
        dsimp only
        rw [hz]
      have hst' : st' = st2 := by
        rw [hrun] at hok
        rcases hflat : flatPermissionsToResourcePermission (cmdScope cmd)
            (getPermissions st2.db cmd.resource cmd.resourceID
              cmd.resourceAttribute role.id) with _ | q
        · rw [hflat] at hok
          exact (congrArg Prod.snd hok).symm
        · rw [hflat] at hok
          exact (congrArg Prod.snd hok).symm
      subst hst'
      have hdb2 : st'.db = createPermissions env role.id cmd.resource
          cmd.resourceID cmd.resourceAttribute missing cmd.permission
          (deletePermissions remove st1.db) := by
        have hzdb := zWrite_db env
          { { st1 with db := deletePermissions remove st1.db } with
            db := (createPermissions env role.id cmd.resource
              cmd.resourceID cmd.resourceAttribute missing cmd.permission
              (deletePermissions remove st1.db)) }
          (grantTuples env role cmd)
        rw [hz] at hzdb
        exact hzdb
      have hroles2 : st'.db.roles = st1.db.roles := by
        rw [hdb2, createPermissions_roles]
        exact (deletePermissions_frame remove st1.db).1
      have hcp : currentPerms st'.db role.id (cmdScope cmd) =
          ((currentPerms st1.db role.id (cmdScope cmd)).filter
              (fun q => !remove.contains q.id)) ++
            freshRows role.id (cmdScope cmd) missing
              (deletePermissions remove st1.db).nextID := by
        show (st'.db.permissions.filter
            (fun q => q.roleID == role.id && q.scope == cmdScope cmd)) = _
        rw [hdb2, createPermissions_permissions env role.id cmd.resource
          cmd.resourceID cmd.resourceAttribute missing cmd.permission _ hflag,
          deletePermissions_permissions, List.filter_append]
        congr 1
        · rw [List.filter_filter]
          unfold currentPerms
          rw [List.filter_filter]
          apply List.filter_congr
          intro q _
          exact Bool.and_comm _ _
        · apply List.filter_eq_self.2
          intro q hq
          obtain ⟨hr, hs⟩ := freshRows_fields role.id (cmdScope cmd) missing _ q hq
          simp [hr, hs]
      have hcurid : ((currentPerms st1.db role.id (cmdScope cmd)).map
            Permission.id).Nodup := by
          have hsub : (currentPerms st1.db role.id (cmdScope cmd)).Sublist
              st.db.permissions := by
            unfold currentPerms
            rw [hperm1]
            exact List.filter_sublist _
          exact hWF.sublist (hsub.map Permission.id)
      have hkm : (diffGo (desiredSet cmd.actions) []
          (currentPerms st1.db role.id (cmdScope cmd))).1 = missing :=
        congrArg Prod.fst hdiff
      have hkr : (diffGo (desiredSet cmd.actions) []
          (currentPerms st1.db role.id (cmdScope cmd))).2 = remove :=
        congrArg Prod.snd hdiff
      obtain ⟨ka, kb, kc⟩ := diffGo_kept
        (currentPerms st1.db role.id (cmdScope cmd))
        (desiredSet cmd.actions) (desiredSet_nodup _) hcurid
      rw [hkr] at ka kb kc
      have hmnodup : missing.Nodup := by
        rw [← hkm]
        exact diffGo_fst_nodup _ _ _ (desiredSet_nodup _)
      have hmmem : ∀ a : String, a ∈ missing ↔
          (a ∈ desiredSet cmd.actions ∧
            ∀ q ∈ currentPerms st1.db role.id (cmdScope cmd), q.action ≠ a) := by
        intro a
        rw [← hkm]
        exact diffGo_fst_mem _ _ _ (desiredSet_nodup _) a
      refine ⟨role, ?_, ?_, ?_⟩
      · rw [hroles2]
        exact hfind1
      · rw [hcp, List.map_append, freshRows_map_action]
        rw [List.nodup_append]
        refine ⟨ka, hmnodup, ?_⟩
        intro a haK haM
        obtain ⟨q, hq, hqa⟩ := List.mem_map.1 haK
        exact ((hmmem a).1 haM).2 q (List.mem_filter.1 hq).1 hqa
      · intro a
        rw [hcp, List.map_append, freshRows_map_action, List.mem_append]
        constructor
        · rintro (haK | haM)
          · obtain ⟨q, hq, hqa⟩ := List.mem_map.1 haK
            have := kb q hq
            rw [hqa] at this
            exact (desiredSet_mem _ _).1 this
          · exact (desiredSet_mem _ _).1 ((hmmem a).1 haM).1
        · intro ha
          by_cases hw : ∃ q ∈ currentPerms st1.db role.id (cmdScope cmd),
              q.action = a
          · exact Or.inl (kc a ((desiredSet_mem _ _).2 ha) hw)
          · refine Or.inr ((hmmem a).2 ⟨(desiredSet_mem _ _).2 ha, ?_⟩)
            intro q hq hqa
            exact hw ⟨q, hq, hqa⟩

theorem permissionDiff_empty_of_synced (acts : List String)
    (cur : List Permission)
    (hnd : (cur.map Permission.action).Nodup)
    (hmem : ∀ a : String, a ∈ cur.map Permission.action ↔ a ∈ acts) :
    permissionDiff (desiredSet acts) cur = ([], []) := by
  rcases hpd : permissionDiff (desiredSet acts) cur with ⟨m, r⟩
  have hfst : (diffGo (desiredSet acts) [] cur).1 = m := congrArg Prod.fst hpd
  have hsnd : (diffGo (desiredSet acts) [] cur).2 = r := congrArg Prod.snd hpd
  have hm : m = [] := by
    rw [← hfst, List.eq_nil_iff_forall_not_mem]
    intro a ha
    have h := (diffGo_fst_mem cur (desiredSet acts) [] (desiredSet_nodup _) a).1 ha
    have haacts : a ∈ acts := (desiredSet_mem _ _).1 h.1
    obtain ⟨q, hq, hqa⟩ := List.mem_map.1 ((hmem a).2 haacts)
    exact h.2 q hq hqa
  have hr : r = [] := by
    rw [← hsnd, diffGo_snd_of_nodup_actions cur _ _ hnd, List.nil_append]
    have hnone : cur.filter (fun q => !(desiredSet acts).contains q.action) = [] := by
      rw [List.filter_eq_nil_iff]
      intro q hq
      have hqacts : q.action ∈ acts :=
        (hmem _).1 (List.mem_map_of_mem Permission.action hq)
      simp [contains_eq_mem, desiredSet_mem, hqacts]
    rw [hnone]
    rfl
  rw [hm, hr]

theorem setResourcePermission_noop (env : Env) (orgID : Int) (roleName : String)
    (adder : Role → St → Except Err Unit × St)
    (cmd : SetResourcePermissionCommand) (st : St) (ρ : Role)
    (hfind : st.db.roles.find?
      (fun r => r.orgID == orgID && r.name == roleName) = some ρ)
    (hdiff : permissionDiff (desiredSet cmd.actions)
      (currentPerms st.db ρ.id (cmdScope cmd)) = ([], [])) :
    ((setResourcePermission env orgID roleName adder cmd st).2).db = st.db := by
  have hga : getOrCreateManagedRole env orgID roleName adder st = (.ok ρ, st) := by
    unfold getOrCreateManagedRole
    rw [hfind]
  unfold setResourcePermission
  rw [hga]
  dsimp only
  rw [hdiff]
  dsimp only
  rcases hz : zWrite env
      { { st with db := deletePermissions [] st.db } with
        db := (createPermissions env ρ.id cmd.resource cmd.resourceID
          cmd.resourceAttribute [] cmd.permission (deletePermissions [] st.db)) }
      (grantTuples env ρ cmd) with ⟨res, s2⟩
  have hs2 : s2.db = st.db := by
    have hzdb := zWrite_db env
      { { st with db := deletePermissions [] st.db } with
        db := (createPermissions env ρ.id cmd.resource cmd.resourceID
          cmd.resourceAttribute [] cmd.permission (deletePermissions [] st.db)) }
      (grantTuples env ρ cmd)
    rw [hz] at hzdb
    exact hzdb
  rw [hz]
  cases res with
  | error e => exact hs2
  | ok u =>
    rcases hflat : flatPermissionsToResourcePermission (cmdScope cmd)
        (getPermissions s2.db cmd.resource cmd.resourceID
          cmd.resourceAttribute ρ.id) with _ | q
    · dsimp only
      rw [hflat]
      exact hs2
    · dsimp only
      rw [hflat]
      exact hs2

/-- C3 (amended): idempotence of the grant when the `FlagAccessActionSets`
feature is disabled.  If a first call of `SetUserResourcePermission`
succeeds (from a state whose permission row ids are store-unique), then
the diff computed by a second call with the same subject, scope and
desired action set is empty — no permission row is deleted and none is
inserted — and the relational database after the second call equals the
database after the first.  (With the feature flag enabled the second call
removes the first call's action-set row — see the counterexample.) -/
theorem setUserResourcePermission_idempotent
    (env : Env) (orgID userID : Int) (cmd : SetResourcePermissionCommand)
    (st : St) (p : ResourcePermission) (st1 : St)
    (hflag : env.flagAccessActionSets = false)
    (hWF : (st.db.permissions.map Permission.id).Nodup)
    (h1 : SetUserResourcePermission env orgID userID cmd st = (.ok p, st1)) :
    (∃ ρ : Role,
      st1.db.roles.find? (fun r => r.orgID == orgID &&
        r.name == managedUserRoleName userID) = some ρ
      ∧ permissionDiff (desiredSet cmd.actions)
          (currentPerms st1.db ρ.id (cmdScope cmd)) = ([], []))
    ∧ (SetUserResourcePermission env orgID userID cmd st1).2.db = st1.db := by
  by_cases hu : (userID == 0) = true
  · unfold SetUserResourcePermission at h1
    rw [if_pos hu] at h1
    exact absurd (congrArg Prod.fst h1) (by simp)
  · unfold SetUserResourcePermission at h1
    rw [if_neg hu] at h1
    unfold withTx at h1
    rcases hin : setUserResourcePermission env orgID userID cmd
        { st with txCount := st.txCount + 1 } with ⟨rin, sin⟩
    rw [hin] at h1
    cases rin with
    | error e => exact absurd (congrArg Prod.fst h1) (by simp)
    | ok pin =>
      have hsin : sin = st1 := congrArg Prod.snd h1
      obtain ⟨ρ, hfind, hnd, hmem⟩ := setResourcePermission_ok_post env orgID
        (managedUserRoleName userID) (userAdder env orgID userID)
        (fun role s => userAdder_preserves env orgID userID role s)
        cmd { st with txCount := st.txCount + 1 } pin sin hflag hWF hin
      rw [hsin] at hfind hnd hmem
      have hdiff2 : permissionDiff (desiredSet cmd.actions)
          (currentPerms st1.db ρ.id (cmdScope cmd)) = ([], []) :=
        permissionDiff_empty_of_synced cmd.actions _ hnd hmem
      refine ⟨⟨ρ, hfind, hdiff2⟩, ?_⟩
      unfold SetUserResourcePermission
      rw [if_neg hu]
      unfold withTx
      rcases h2 : setUserResourcePermission env orgID userID cmd
          { st1 with txCount := st1.txCount + 1 } with ⟨r2, s2⟩
      have hdb : s2.db = st1.db := by
        have hno := setResourcePermission_noop env orgID
          (managedUserRoleName userID) (userAdder env orgID userID) cmd
          { st1 with txCount := st1.txCount + 1 } ρ hfind hdiff2
        have h2s : setResourcePermission env orgID (managedUserRoleName userID)
            (userAdder env orgID userID) cmd
            { st1 with txCount := st1.txCount + 1 } = (r2, s2) := h2
        rw [h2s] at hno
        exact hno
      cases r2 with
      | ok a => exact hdb
      | error e => rfl

set_option maxRecDepth 100000 in
/-- Witness for `setUserResourcePermission_idempotent`: after the
concrete first grant (state `stA`), a second identical grant leaves the
relational database unchanged. -/
theorem setUserResourcePermission_idempotent_witness :
    (env0.flagAccessActionSets = false
    ∧ (st0.db.permissions.map Permission.id).Nodup)
    ∧ (SetUserResourcePermission env0 1 7 cmd0 stA).2.db = stA.db :=
  ⟨⟨rfl, by decide⟩,
    (setUserResourcePermission_idempotent env0 1 7 cmd0 st0 pA stA rfl
      (by decide) (by decide)).2⟩

/-- C3 counterexample: with the `FlagAccessActionSets` feature enabled,
the second identical call is not a no-op.  The first grant inserts two
permission rows (the requested action and the action-set row); the second
call computes a non-empty diff, deletes the action-set row (one relational
delete), and ends with a different relational database than the first. -/
theorem actionset_flag_counterexample :
    (SetUserResourcePermission envFlag 1 7 cmd0 st0).1.isOk = true
    ∧ (SetUserResourcePermission envFlag 1 7 cmd0 st0).2.db.permissions.length = 2
    ∧ (SetUserResourcePermission envFlag 1 7 cmd0
        (SetUserResourcePermission envFlag 1 7 cmd0 st0).2).1.isOk = true
    ∧ (SetUserResourcePermission envFlag 1 7 cmd0
        (SetUserResourcePermission envFlag 1 7 cmd0 st0).2).2.db.permissions.length = 1
    ∧ (SetUserResourcePermission envFlag 1 7 cmd0
        (SetUserResourcePermission envFlag 1 7 cmd0 st0).2).2.db ≠
      (SetUserResourcePermission envFlag 1 7 cmd0 st0).2.db := by
  refine ⟨by decide, by decide, by decide, by decide, by decide⟩

end GrafanaRBAC
